import Mathlib

set_option maxRecDepth 10000

/-!
Verification of the httpserver repository's specification against a shallow
embedding of its source code.  Strings are modelled as `List Char` (Python
`str`), byte sequences as `List Nat` (Python `bytes`/`bytearray`, each entry
< 256), and Python `dict`s as insertion-ordered association lists.
-/

deriving instance DecidableEq for Except

/-- Python strings are modelled as lists of characters. -/
abbrev Str := List Char

/-- Byte sequences (`bytes` / `bytearray`) are modelled as lists of `Nat`. -/
abbrev Bytes := List Nat

/-- Lookup in an insertion-ordered association list (Python `d[k]` /
`k in d`); returns the first binding for the key. -/
def dlookup (k : Str) : List (Str × Str) → Option Str
  | [] => none
  | (k', v) :: rest => if k' = k then some v else dlookup k rest

/-- Replacement of the (unique) binding for a key by a new value, keeping
its position. -/
def dupdate (k v : Str) : List (Str × Str) → List (Str × Str)
  | [] => []
  | (k', v') :: rest =>
      if k' = k then (k, v) :: rest else (k', v') :: dupdate k v rest

/-- Python `d[k] = v`: if the key is present its value is updated in place
(keeping its position), otherwise the binding is appended at the end
(Python 3 dicts preserve insertion order; dict keys are unique). -/
def dinsert (k v : Str) (h : List (Str × Str)) : List (Str × Str) :=
  if (dlookup k h).isSome then dupdate k v h
  else h ++ [(k, v)]

/-- Python `d.pop(k, None)`: remove the binding for the key. -/
def derase (k : Str) (h : List (Str × Str)) : List (Str × Str) :=
  h.filter (fun p => p.1 ≠ k)

/-- Lookup in the status table, keyed by an integer status code
(Python `dict` access `__HTTP_STATUS[code]`). -/
def slookup (k : Int) : List (Int × Str) → Option Str
  | [] => none
  | (k', v) :: rest => if k' = k then some v else slookup k rest

/-- Fuel-driven decimal rendering: prepends the digits of `n` to `acc`.
`natStr` supplies enough fuel that the `0` case is never reached. -/
def natStrGo (fuel n : Nat) (acc : Str) : Str :=
  match fuel with
  | 0 => acc
  | fuel + 1 =>
      let acc1 := Char.ofNat (48 + n % 10) :: acc
      if n < 10 then acc1 else natStrGo fuel (n / 10) acc1

/-- Decimal rendering of a natural number, Python `str(n)`. -/
def natStr (n : Nat) : Str := natStrGo (n + 1) n []

/-- Reference decimal rendering by well-founded recursion (used only in
proofs about `natStr`). -/
def natRep (n : Nat) : Str :=
  if _h : n < 10 then [Char.ofNat (48 + n)]
  else natRep (n / 10) ++ [Char.ofNat (48 + n % 10)]
decreasing_by exact Nat.div_lt_self (by omega) (by omega)

/-- Decimal rendering of an integer, Python `str(i)`. -/
def intStr (i : Int) : Str := (toString i).toList

/-- The `HttpResponse.__HTTP_STATUS` reason-phrase table from
src/httpresponse.py. -/
def HTTP_STATUS : List (Int × Str) := [
  (100, "Continue".toList),
  (101, "Switching Protocols".toList),
  (200, "OK".toList),
  (201, "Created".toList),
  (202, "Accepted".toList),
  (203, "Non-Authoritative Information".toList),
  (204, "No Content".toList),
  (205, "Reset Content".toList),
  (206, "Partial Content".toList),
  (300, "Multiple Choices".toList),
  (301, "Moved Permanently".toList),
  (302, "Found".toList),
  (303, "See Other".toList),
  (304, "Not Modified".toList),
  (305, "Use Proxy".toList),
  (307, "Temporary Redirect".toList),
  (400, "Bad Request".toList),
  (401, "Unauthorized".toList),
  (402, "Payment Required".toList),
  (403, "Forbidden".toList),
  (404, "Not Found".toList),
  (405, "Method Not Allowed".toList),
  (406, "Not Acceptable".toList),
  (407, "Proxy Authentication Required".toList),
  (408, "Request Timeout".toList),
  (409, "Conflict".toList),
  (410, "Gone".toList),
  (411, "Length Required".toList),
  (412, "Precondition Failed".toList),
  (413, "Request Entity Too Large".toList),
  (414, "Request-URI Too Long".toList),
  (415, "Unsupported Media Type".toList),
  (416, "Request Range Not Satisfiable".toList),
  (417, "Expectation Failed".toList),
  (500, "Internal Server Error".toList),
  (501, "Not Implemented".toList),
  (502, "Bad Gateway".toList),
  (503, "Service Unavailable".toList),
  (504, "Gateway Timeout".toList),
  (505, "HTTP Version Not Supported".toList)]

/-- The `"Content-Length"` header name. -/
def contentLengthKey : Str := "Content-Length".toList

/-- The `HttpResponse` entity of src/httpresponse.py: status line string,
status code, HTTP version, insertion-ordered header dict, optional body. -/
structure HttpResponse where
  headers : List (Str × Str)
  status : Str
  statusCode : Int
  httpVersion : Str
  body : Option Bytes
deriving DecidableEq, Repr

/-- The `value is None` branch of the `HttpResponse.body` setter: clears the
body and removes any `Content-Length` header. -/
def bodyNone (r : HttpResponse) : HttpResponse :=
  { r with body := none, headers := derase contentLengthKey r.headers }

/-- The `HttpResponse.status` setter: stores the code, looks the reason
phrase up in `HTTP_STATUS`; on success, a 204 code additionally clears the
body (`self.body = None`, which is exactly `bodyNone` and performs no
further status change), and the status line becomes `str(code) + " " +
phrase`; a `KeyError` (unknown code) makes the status line
`"501 Not Implemented"` while the stored code keeps the unknown value. -/
def setStatus (r : HttpResponse) (code : Int) : HttpResponse :=
  let r1 := { r with statusCode := code }
  match slookup code HTTP_STATUS with
  | some phrase =>
      let r2 := if code = 204 then bodyNone r1 else r1
      { r2 with status := intStr code ++ " ".toList ++ phrase }
  | none => { r1 with status := "501 Not Implemented".toList }

/-- The `HttpResponse.body` setter: a non-`None` value (empty bytes
included) first promotes a 204 status to 200 (`self.status = 200`, whose
setter does not recurse into the body because 200 ≠ 204), then stores the
body and sets `Content-Length` to `str(len(value))`; a `None` value clears
the body and drops `Content-Length`. -/
def setBody (r : HttpResponse) (v : Option Bytes) : HttpResponse :=
  match v with
  | some value =>
      let r1 := if r.statusCode = 204 then setStatus r 200 else r
      { r1 with body := some value,
                headers := dinsert contentLengthKey (natStr value.length) r1.headers }
  | none => bodyNone r

/-- Mutation of a single header entry, `response.headers[k] = v`. -/
def setHeader (r : HttpResponse) (k v : Str) : HttpResponse :=
  { r with headers := dinsert k v r.headers }

/-- `HttpResponse.__init__`: empty headers, status set to 204 through the
setter, version `HTTP/1.1`, no body.  The placeholder field values are
overwritten by the `setStatus` call before they can be observed. -/
def mkHttpResponse : HttpResponse :=
  let r0 : HttpResponse :=
    { headers := [], status := [], statusCode := 0, httpVersion := [], body := none }
  let r1 := setStatus r0 204
  { r1 with httpVersion := "HTTP/1.1".toList }

/-- `HttpResponse.build()`: version, space, status line, CRLF, each header
as `name: value` + CRLF in insertion order, a blank CRLF line, then the raw
body bytes if the body is truthy (present and non-empty). -/
def buildResponse (r : HttpResponse) : Bytes :=
  let headText := r.headers.foldl
    (fun acc p => acc ++ p.1 ++ ": ".toList ++ p.2 ++ "\r\n".toList) []
  let text := r.httpVersion ++ " ".toList ++ r.status ++ "\r\n".toList
    ++ headText ++ "\r\n".toList
  let bytes := text.map Char.toNat
  match r.body with
  | some b => if b ≠ [] then bytes ++ b else bytes
  | none => bytes

/-- Responses reachable through the program's interface to `HttpResponse`:
construction, the status setter, the body setter, and direct header
assignment for keys other than `Content-Length` (the repository writes
`Content-Length` only through the body setter; the keys it assigns
directly are `Allow`, `Upgrade`, `Connection`, `Sec-WebSocket-Accept` and
`Content-Type`). -/
inductive ReachableResponse : HttpResponse → Prop
  | init : ReachableResponse mkHttpResponse
  | status {r : HttpResponse} (c : Int) :
      ReachableResponse r → ReachableResponse (setStatus r c)
  | body {r : HttpResponse} (v : Option Bytes) :
      ReachableResponse r → ReachableResponse (setBody r v)
  | header {r : HttpResponse} (k v : Str) (hk : k ≠ contentLengthKey) :
      ReachableResponse r → ReachableResponse (setHeader r k v)



/-! ## SHA-1, base64 and UTF-8 (Python `hashlib.sha1`, `base64.b64encode`,
`str.encode("utf-8")`), needed by the WebSocket handshake -/

/-- 32-bit left rotation on naturals reduced mod 2^32. -/
def rotl32 (x k : Nat) : Nat := ((x <<< k) ||| (x >>> (32 - k))) % 2 ^ 32

/-- Big-endian 4-byte encoding of a 32-bit value. -/
def be32 (n : Nat) : Bytes :=
  [(n >>> 24) % 256, (n >>> 16) % 256, (n >>> 8) % 256, n % 256]

/-- Big-endian 8-byte encoding of a 64-bit value. -/
def be64 (n : Nat) : Bytes := be32 (n >>> 32) ++ be32 n

/-- SHA-1 padding: append 0x80, zero bytes to 56 mod 64, and the bit
length as a big-endian 64-bit integer. -/
def sha1Pad (msg : Bytes) : Bytes :=
  let z := (64 + 56 - ((msg.length + 1) % 64)) % 64
  msg ++ [0x80] ++ List.replicate z 0 ++ be64 (msg.length * 8)

/-- Grouping of bytes into big-endian 32-bit words. -/
def toWords : Bytes → List Nat
  | b0 :: b1 :: b2 :: b3 :: rest =>
      (b0 <<< 24 ||| b1 <<< 16 ||| b2 <<< 8 ||| b3) :: toWords rest
  | _ => []

/-- Fuel-driven split into 64-byte blocks (the fuel bounds the number of
blocks; `blocks64` supplies enough). -/
def blocksGo (k : Nat) (l : Bytes) : List Bytes :=
  match k with
  | 0 => []
  | k + 1 => if l = [] then [] else l.take 64 :: blocksGo k (l.drop 64)

/-- Split of a byte list into 64-byte blocks. -/
def blocks64 (l : Bytes) : List Bytes := blocksGo l.length l

/-- Message-schedule expansion step; the accumulator holds the words
produced so far in reverse order. -/
def expandGo : Nat → List Nat → List Nat
  | 0, acc => acc.reverse
  | n + 1, acc =>
      expandGo n
        (rotl32 ((acc.getD 2 0) ^^^ (acc.getD 7 0) ^^^ (acc.getD 13 0)
          ^^^ (acc.getD 15 0)) 1 :: acc)

/-- Expansion of the 16 block words into the 80-word SHA-1 schedule. -/
def expandWords (w16 : List Nat) : List Nat := expandGo 64 w16.reverse

/-- The SHA-1 round function for round `i`. -/
def sha1F (i b c d : Nat) : Nat :=
  if i < 20 then (b &&& c) ||| ((b ^^^ 0xFFFFFFFF) &&& d)
  else if i < 40 then b ^^^ c ^^^ d
  else if i < 60 then (b &&& c) ||| (b &&& d) ||| (c &&& d)
  else b ^^^ c ^^^ d

/-- The SHA-1 round constant for round `i`. -/
def sha1K (i : Nat) : Nat :=
  if i < 20 then 0x5A827999
  else if i < 40 then 0x6ED9EBA1
  else if i < 60 then 0x8F1BBCDC
  else 0xCA62C1D6

/-- One SHA-1 compression round. -/
def sha1Round (st : Nat × Nat × Nat × Nat × Nat) (iw : Nat × Nat) :
    Nat × Nat × Nat × Nat × Nat :=
  let (a, b, c, d, e) := st
  let (i, w) := iw
  let t := (rotl32 a 5 + sha1F i b c d + e + sha1K i + w) % 2 ^ 32
  (t, a, rotl32 b 30, c, d)

/-- SHA-1 compression of one 64-byte block. -/
def sha1Block (h : Nat × Nat × Nat × Nat × Nat) (block : Bytes) :
    Nat × Nat × Nat × Nat × Nat :=
  let ws := expandWords (toWords block)
  let (a, b, c, d, e) := ws.enum.foldl sha1Round h
  let (h0, h1, h2, h3, h4) := h
  ((h0 + a) % 2 ^ 32, (h1 + b) % 2 ^ 32, (h2 + c) % 2 ^ 32,
   (h3 + d) % 2 ^ 32, (h4 + e) % 2 ^ 32)

/-- SHA-1 of a byte sequence (the 20-byte digest). -/
def sha1 (msg : Bytes) : Bytes :=
  let (h0, h1, h2, h3, h4) := (blocks64 (sha1Pad msg)).foldl sha1Block
    (0x67452301, 0xEFCDAB89, 0x98BADCFE, 0x10325476, 0xC3D2E1F0)
  be32 h0 ++ be32 h1 ++ be32 h2 ++ be32 h3 ++ be32 h4

/-- The base64 alphabet. -/
def b64Table : Str :=
  "ABCDEFGHIJKLMNOPQRSTUVWXYZabcdefghijklmnopqrstuvwxyz0123456789+/".toList

/-- Standard base64 encoding with `=` padding. -/
def b64encode : Bytes → Str
  | [] => []
  | [b0] =>
      [b64Table.getD (b0 >>> 2) 'A', b64Table.getD ((b0 &&& 3) <<< 4) 'A',
       '=', '=']
  | [b0, b1] =>
      [b64Table.getD (b0 >>> 2) 'A',
       b64Table.getD ((b0 &&& 3) <<< 4 ||| b1 >>> 4) 'A',
       b64Table.getD ((b1 &&& 15) <<< 2) 'A', '=']
  | b0 :: b1 :: b2 :: rest =>
      [b64Table.getD (b0 >>> 2) 'A',
       b64Table.getD ((b0 &&& 3) <<< 4 ||| b1 >>> 4) 'A',
       b64Table.getD ((b1 &&& 15) <<< 2 ||| b2 >>> 6) 'A',
       b64Table.getD (b2 &&& 63) 'A']
      ++ b64encode rest

/-- UTF-8 encoding of one character. -/
def utf8Char (c : Char) : Bytes :=
  let n := c.toNat
  if n < 0x80 then [n]
  else if n < 0x800 then [0xC0 ||| (n >>> 6), 0x80 ||| (n &&& 63)]
  else if n < 0x10000 then
    [0xE0 ||| (n >>> 12), 0x80 ||| ((n >>> 6) &&& 63), 0x80 ||| (n &&& 63)]
  else
    [0xF0 ||| (n >>> 18), 0x80 ||| ((n >>> 12) &&& 63),
     0x80 ||| ((n >>> 6) &&& 63), 0x80 ||| (n &&& 63)]

/-- UTF-8 encoding of a string, Python `s.encode("utf-8")`. -/
def utf8Encode (s : Str) : Bytes := (s.map utf8Char).flatten

/-- The fixed WebSocket GUID from `__handle_web_socket_request`. -/
def wsGUID : Str := "258EAFA5-E914-47DA-95CA-C5AB0DC85B11".toList

/-- The `Sec-WebSocket-Accept` derivation:
base64(SHA-1(key + GUID)), both strings UTF-8 encoded. -/
def webSocketAccept (key : Str) : Str :=
  b64encode (sha1 (utf8Encode (key ++ wsGUID)))

/-- `HttpRequestHandler.__handle_web_socket_request` (response part): sets
status 101 and the `Upgrade`, `Connection` and `Sec-WebSocket-Accept`
headers on the response.  The request's `Sec-WebSocket-Key` header is
looked up in the request header dict (a missing key would raise an
uncaught `KeyError` in the source; the claim presupposes an upgrade
request, and the theorem requires the header to be present). -/
def handleWebSocketRequest (reqHeaders : List (Str × Str))
    (r : HttpResponse) : HttpResponse :=
  let r1 := setStatus r 101
  let r2 := setHeader r1 "Upgrade".toList "websocket".toList
  let r3 := setHeader r2 "Connection".toList "Upgrade".toList
  let keyv := (dlookup "Sec-WebSocket-Key".toList reqHeaders).getD []
  setHeader r3 "Sec-WebSocket-Accept".toList (webSocketAccept keyv)


/-! ## WebSocket frame codec (src/websocketmessage.py, src/websockethandler.py) -/

/-- Big-endian 2-byte encoding of a 16-bit value (`pack(">H", n)`). -/
def be16 (n : Nat) : Bytes := [(n >>> 8) % 256, n % 256]

/-- `WebSocketMessage.__MAX_CHUNK_PAYLOAD_LENGTH` = 2^64 - 1. -/
def MAX_CHUNK_PAYLOAD_LENGTH : Nat := 2 ^ 64 - 1

/-- One chunk of `WebSocketMessage.get_chunks`: the header byte, the
payload length (one byte if < 126, else `126` + 2 big-endian bytes if
< 2^16, else `127` + 8 big-endian bytes), then the payload.  Byte-level
semantics of the source's `bytearray` operations (`chunk.append(pack(">B",
header))` appends the single header byte). -/
def encodeChunk (header : Nat) (payload : Bytes) : Bytes :=
  let lenPart :=
    if payload.length < 126 then [payload.length]
    else if payload.length < 2 ^ 16 then 126 :: be16 payload.length
    else 127 :: be64 payload.length
  header :: lenPart ++ payload

/-- Fuel-driven body of `WebSocketMessage.get_chunks`: while the remaining
message is at least the maximum chunk length, emit a chunk of the first
`MAX_CHUNK_PAYLOAD_LENGTH` bytes with the plain type header (FIN clear);
the final chunk gets `header + 0b10000000` (FIN set).  Each iteration
consumes `MAX_CHUNK_PAYLOAD_LENGTH ≥ 1` bytes, so `getChunks` supplies
enough fuel that the `0` case is never reached. -/
def getChunksGo (fuel typeHeader : Nat) (message : Bytes) : List Bytes :=
  match fuel with
  | 0 => []
  | fuel + 1 =>
      if MAX_CHUNK_PAYLOAD_LENGTH ≤ message.length then
        encodeChunk typeHeader (message.take MAX_CHUNK_PAYLOAD_LENGTH) ::
          getChunksGo fuel typeHeader (message.drop MAX_CHUNK_PAYLOAD_LENGTH)
      else [encodeChunk (typeHeader + 0x80) message]

/-- `WebSocketMessage.get_chunks` on a whole message. -/
def getChunks (typeHeader : Nat) (message : Bytes) : List Bytes :=
  getChunksGo (message.length + 1) typeHeader message

/-- The masking key byte used at payload index `i` (`masking_key[i % 4]`). -/
def maskAt (key : Bytes) (i : Nat) : Nat := key.getD (i % 4) 0

/-- XOR (un)masking of a payload starting at index `i`
(`payload[i] ^= masking_key[i % 4]`). -/
def xorMask (key : Bytes) : Nat → Bytes → Bytes
  | _, [] => []
  | i, b :: rest => (b ^^^ maskAt key i) :: xorMask key (i + 1) rest

/-- Outcome of `WebSocketHandler.read`. -/
inductive WsOutcome where
  /-- the assembled message was delivered to `received_message`, with the
  unread remainder of the stream -/
  | msg (m : Bytes) (rest : Bytes)
  /-- a close frame (opcode 8) was received: connection marked closed and
  socket closed, without invoking the callback -/
  | closed (rest : Bytes)
  /-- `struct.unpack_from` returned a one-element tuple that the source
  passes un-indexed to `bytearray` / `recv_into`, raising `TypeError` -/
  | errTypeTuple
  /-- `OpcodeNotSupportedException` -/
  | errOpcode (op : Nat)
  /-- `NotMaskedException` -/
  | errNotMasked
  /-- the socket yielded fewer bytes than requested (the model's stream
  ran out, or the fuel bound was reached) -/
  | errStarved
deriving DecidableEq, Repr

/-- `WebSocketHandler.read`: the frame loop.  Each iteration reads a
2-byte header and extracts FIN (`b0 & 0x80`), opcode (`b0 & 0x0F`), the
mask bit (`b1 & 0x80`) and the 7-bit length (`b1 & 0x7F`).  A 7-bit length
of 126 (resp. 127) makes the source read 2 (resp. 8) further bytes and
assign `payload_length = unpack_from(...)`, a one-element tuple; the
subsequent `bytearray(payload_length)` / `recv_into(payload,
payload_length)` then raises `TypeError`, modelled as `errTypeTuple`
(after the masking key has been read, as in the source's statement
order).  Otherwise a 4-byte masking key is read if the mask bit is set, a
payload of the 7-bit length is read, opcode 8 closes, opcodes other than
0/1 error, an unmasked nonempty payload errors, and a masked payload is
XOR-unmasked with `masking_key[i % 4]` and appended to the accumulated
message (the source's `message += str(payload)`, byte semantics); the
loop repeats until a frame with FIN set, then delivers the message. -/
def wsRead (fuel : Nat) (stream : Bytes) (message : Bytes) : WsOutcome :=
  match fuel with
  | 0 => .errStarved
  | fuel + 1 =>
    match stream with
    | b0 :: b1 :: rest =>
      let fin := b0 &&& 0x80 > 0
      let opcode := b0 &&& 0x0F
      let mask := b1 &&& 0x80 > 0
      let len7 := b1 &&& 0x7F
      let extLen := if len7 = 126 then 2 else if len7 = 127 then 8 else 0
      if rest.length < extLen then .errStarved else
      let rest1 := rest.drop extLen
      if mask ∧ rest1.length < 4 then .errStarved else
      let key := if mask then rest1.take 4 else []
      let rest2 := if mask then rest1.drop 4 else rest1
      if len7 = 126 ∨ len7 = 127 then .errTypeTuple else
      if rest2.length < len7 then .errStarved else
      let payload := rest2.take len7
      let rest3 := rest2.drop len7
      if opcode = 8 then .closed rest3
      else if ¬(opcode = 1 ∨ opcode = 0) then .errOpcode opcode
      else if ¬mask ∧ len7 > 0 then .errNotMasked
      else
        let message1 :=
          if len7 > 0 then message ++ xorMask key 0 payload else message
        if fin then .msg message1 rest3
        else wsRead fuel rest3 message1
    | _ => .errStarved

/-- One call of `WebSocketHandler.read` on a byte stream, with enough fuel
for any stream (every frame consumes at least two bytes). -/
def wsReadMessage (stream : Bytes) : WsOutcome := wsRead (stream.length + 1) stream []

/-- Client-side masking of a single server-format (unmasked) frame, as the
claim's "simulating a client": set the mask bit in the second byte, keep
any extended-length bytes, insert the 4-byte key, XOR the payload. -/
def clientMask (key : Bytes) : Bytes → Bytes
  | b0 :: b1 :: rest =>
      let extLen := if b1 = 126 then 2 else if b1 = 127 then 8 else 0
      b0 :: (b1 ||| 0x80) :: (rest.take extLen ++ key ++ xorMask key 0 (rest.drop extLen))
  | other => other


/-! ## HTTP request parsing (src/httprequest.py) -/

/-- Universal-newline translation performed by reading the socket through
`client.makefile()` in text mode: `"\r\n"` and a lone `"\r"` each become
`"\n"`. -/
def translateNewlines : Str → Str
  | [] => []
  | [c] => if c = '\r' then ['\n'] else [c]
  | c :: d :: rest =>
      if c = '\r' then
        if d = '\n' then '\n' :: translateNewlines rest
        else '\n' :: translateNewlines (d :: rest)
      else c :: translateNewlines (d :: rest)

/-- Python `file.readline()`: the prefix up to and including the first
`'\n'` (the whole remainder at end of stream), together with the rest. -/
def readLine : Str → Str × Str
  | [] => ([], [])
  | c :: rest =>
      if c = '\n' then ([c], rest)
      else
        let (l, r) := readLine rest
        (c :: l, r)

/-- Python `s.split(sep)` for a single-character separator. -/
def pySplitChar (sep : Char) : Str → List Str
  | [] => [[]]
  | c :: rest =>
      if c = sep then [] :: pySplitChar sep rest
      else
        match pySplitChar sep rest with
        | h :: t => (c :: h) :: t
        | [] => [[c]]

/-- Python `s.find(sub)` as an `Option`: index of the first occurrence of
`sub` (for the empty `sub`, 0, as in Python). -/
def strFind (sub : Str) : Str → Option Nat
  | [] => if sub = [] then some 0 else none
  | c :: rest =>
      if sub.isPrefixOf (c :: rest) then some 0
      else
        match strFind sub rest with
        | some i => some (i + 1)
        | none => none

/-- Fuel-driven Python `s.split(sep)` for a nonempty string separator;
each step consumes at least one character, so `pySplit` supplies enough
fuel that the `0` case is never reached. -/
def pySplitGo (fuel : Nat) (sep s : Str) : List Str :=
  match fuel with
  | 0 => [s]
  | fuel + 1 =>
      match strFind sep s with
      | none => [s]
      | some i => s.take i :: pySplitGo fuel sep (s.drop (i + sep.length))

/-- Python `s.split(sep)` for a nonempty string separator. -/
def pySplit (sep s : Str) : List Str := pySplitGo (s.length + 1) sep s

/-- Python `s.strip()`: whitespace removed from both ends. -/
def pyStrip (s : Str) : Str :=
  ((s.dropWhile Char.isWhitespace).reverse.dropWhile Char.isWhitespace).reverse

/-- Fuel-driven decimal digit parser: folds digits into `acc`, `none` on
the first non-digit. -/
def digitsValGo (acc : Nat) : Str → Option Nat
  | [] => some acc
  | c :: rest =>
      if c.isDigit then digitsValGo (acc * 10 + (c.toNat - 48)) rest else none

/-- Value of a nonempty all-digit string. -/
def digitsVal : Str → Option Nat
  | [] => none
  | s => digitsValGo 0 s

/-- Sign handling of Python `int(s)` after stripping. -/
def pyIntCore : Str → Option Int
  | [] => none
  | c :: rest =>
      if c = '+' then (digitsVal rest).map (fun n => (n : Int))
      else if c = '-' then (digitsVal rest).map (fun n => -(n : Int))
      else (digitsVal (c :: rest)).map (fun n => (n : Int))

/-- Python `int(s)`: strips whitespace, accepts an optional sign followed
by digits, raises `ValueError` (here `none`) otherwise.  (Underscore
digit grouping is not modelled.) -/
def pyInt (s : Str) : Option Int := pyIntCore (pyStrip s)

/-- Python `file.read(n)` in text mode: `n` characters (everything for a
negative `n`), with the remainder. -/
def pyRead (n : Int) (s : Str) : Str × Str :=
  if n < 0 then (s, [])
  else (s.take n.toNat, s.drop n.toNat)

/-- The `HttpRequest` entity of src/httprequest.py. -/
structure HttpRequest where
  method : Str
  requestUri : Str
  queryString : Str
  httpVersion : Str
  headers : List (Str × Str)
  body : Option Str
deriving DecidableEq, Repr

/-- Errors a request parse can raise: `HttpRequestParseErrorException`
(re-raised from the caught `IndexError` when a split lacks the accessed
part) and the uncaught `ValueError` from `int()` on a malformed
`Content-Length` value. -/
inductive PyErr where
  | parseError
  | valueError
deriving DecidableEq, Repr

/-- The header loop of `HttpRequest.__init__`: read lines until `"\r\n"`
or `"\n"`; each line is split on `": "`, part 0 is the name and part 1
(stripped) the value, assigned into the header dict; a line without a
part 1 (including the empty string returned at end of stream) raises
`IndexError`, caught and re-raised as the parse error.  Fuel-driven; each
iteration consumes at least one character, so the caller supplies enough
fuel that the `0` case is never reached. -/
def parseHeadersGo (fuel : Nat) (s : Str) (hdrs : List (Str × Str)) :
    Except PyErr (List (Str × Str) × Str) :=
  match fuel with
  | 0 => .error .parseError
  | fuel + 1 =>
      let (line, rest) := readLine s
      if line = "\r\n".toList ∨ line = "\n".toList then .ok (hdrs, rest)
      else
        match pySplit ": ".toList line with
        | p0 :: p1 :: _ => parseHeadersGo fuel rest (dinsert p0 (pyStrip p1) hdrs)
        | _ => .error .parseError

/-- `HttpRequest.__init__` on the text-mode stream of one connection:
reads the request line, splits it on single spaces (part 0 the method,
part 1 the target — itself split on `"?"` into the request URI and, when
present, part 1 as the query string — and part 2 the HTTP version, kept
untrimmed), then the header loop, then — when a `Content-Length` header
was stored — `int()` of its value (an unparsable value raises the
uncaught `ValueError`) and a body of that many characters.  A missing
request-line part raises `IndexError`, caught and re-raised as the parse
error.  The raw socket bytes pass through `translateNewlines` first
(text-mode reading). -/
def parseHttpRequest (raw : Str) : Except PyErr HttpRequest :=
  let s := translateNewlines raw
  let line := (readLine s).1
  let rest := (readLine s).2
  match pySplitChar ' ' line with
  | m :: t :: vrest =>
      let fullUri := pySplitChar '?' t
      let requestUri := fullUri.headD []
      let queryString := if fullUri.length ≤ 1 then [] else fullUri.getD 1 []
      match vrest with
      | v :: _ =>
          match parseHeadersGo (rest.length + 1) rest [] with
          | .error e => .error e
          | .ok (hdrs, rest2) =>
              match dlookup contentLengthKey hdrs with
              | none =>
                  .ok { method := m, requestUri := requestUri,
                        queryString := queryString, httpVersion := v,
                        headers := hdrs, body := none }
              | some cl =>
                  match pyInt cl with
                  | none => .error .valueError
                  | some n =>
                      .ok { method := m, requestUri := requestUri,
                            queryString := queryString, httpVersion := v,
                            headers := hdrs, body := some (pyRead n rest2).1 }
      | [] => .error .parseError
  | _ => .error .parseError

/-- The `Content-Length` header pair an encoder adds for a present body. -/
def clHeader : Option Str → List (Str × Str)
  | some b => [(contentLengthKey, natStr b.length)]
  | none => []

/-- The wire encoding of a request per the spec's wire format: request
line `method SP target SP version CRLF` (the target is the path, followed
by `?query` when the query is nonempty), header lines `name: value CRLF`
(with `Content-Length` appended when a body is present), an empty line,
then the body. -/
def encodeRequest (method path query version : Str)
    (headers : List (Str × Str)) (body : Option Str) : Str :=
  let target := path ++ (if query = [] then [] else '?' :: query)
  let lines := (method ++ [' '] ++ target ++ [' '] ++ version) ::
    ((headers ++ clHeader body).map (fun p => p.1 ++ ": ".toList ++ p.2)) ++ [[]]
  (lines.map (fun l => l ++ "\r\n".toList)).flatten ++ body.getD []

/-- The header dict built by inserting a list of bindings in order. -/
def dictOfList (l : List (Str × Str)) : List (Str × Str) :=
  l.foldl (fun d p => dinsert p.1 p.2 d) []

/-- A string with no space, carriage return or line feed. -/
abbrev plainToken (s : Str) : Prop := ' ' ∉ s ∧ '\r' ∉ s ∧ '\n' ∉ s

/-- A well-formed header pair: the name has no colon (hence no `": "`),
the value has no `": "` occurrence, neither has CR or LF, and the value
has no leading or trailing whitespace (its ends survive `strip()`). -/
abbrev plainHeader (p : Str × Str) : Prop :=
  ':' ∉ p.1 ∧ '\r' ∉ p.1 ∧ '\n' ∉ p.1 ∧
  strFind ": ".toList p.2 = none ∧ '\r' ∉ p.2 ∧ '\n' ∉ p.2 ∧
  p.2.head?.all (fun c => !c.isWhitespace) = true ∧
  p.2.getLast?.all (fun c => !c.isWhitespace) = true

/-- Well-formedness of the fields of an encoded request: method, path,
query and version are plain tokens, path and query contain no `'?'`,
every header is well formed and none of them is named `Content-Length`
(the encoder adds that header itself), and the body contains no carriage
return (text-mode reading would translate it). -/
abbrev WellFormedRequest (method path query version : Str)
    (headers : List (Str × Str)) (body : Option Str) : Prop :=
  plainToken method ∧ plainToken path ∧ plainToken query ∧
  plainToken version ∧ '?' ∉ path ∧ '?' ∉ query ∧
  (∀ p ∈ headers, plainHeader p) ∧
  (∀ p ∈ headers, p.1 ≠ contentLengthKey) ∧
  '\r' ∉ body.getD []

/-- One header line as emitted by the encoder, after newline
translation. -/
def headerLine (p : Str × Str) : Str := p.1 ++ ": ".toList ++ p.2 ++ ['\n']


/-! ## Routing and dispatch (src/httprequesthandler.py) -/

/-- Generic lookup in an insertion-ordered association list keyed by
strings (Python `d[k]` / `k in d` for the endpoint registry). -/
def alookup {α : Type} (k : Str) : List (Str × α) → Option α
  | [] => none
  | (k', v) :: rest => if k' = k then some v else alookup k rest

/-- The default `HttpRequestHandler.__API_URI`. -/
def API_URI : Str := "/api".toList

/-- The HTTP method whitelist checked in `HttpRequestHandler.__init__`. -/
def METHOD_WHITELIST : List Str :=
  ["GET", "POST", "HEAD", "PUT", "DELETE", "TRACE", "OPTIONS", "CONNECT",
   "PATCH"].map String.toList

/-- Python `s.replace(old, new, 1)`: replace the first occurrence (an
empty `old` prepends `new`, as in Python). -/
def pyReplaceFirst (old new s : Str) : Str :=
  match strFind old s with
  | none => s
  | some i => s.take i ++ new ++ s.drop (i + old.length)

/-- Python `s.find(sub)` with Python's `-1` convention. -/
def pyFindInt (sub s : Str) : Int :=
  match strFind sub s with
  | some i => (i : Int)
  | none => -1

/-- Python `s[:i]` for a possibly negative `i`. -/
def pySliceTo (s : Str) (i : Int) : Str :=
  if 0 ≤ i then s.take i.toNat
  else s.take ((s.length : Int) + i).toNat

/-- `HttpRequestHandler.__get_regex_from_dynamic_uri`: the dynamic-part
names are the segments after each `":"` up to the next `"/"` (stopping at
the first empty split, the `break`); the URI has `"/"` escaped to `"\/"`
and each `":name"` replaced (first occurrence) by `".+"`; the result is
anchored with `"^"` and `"$"`. -/
def getRegexFromDynamicUri (uri : Str) : Str :=
  let uri_split := (pySplitChar ':' uri).drop 1
  let arguments := (uri_split.takeWhile (fun s => s ≠ [])).map
    (fun s => (pySplitChar '/' s).headD [])
  let new_uri := List.intercalate "\\/".toList (pySplitChar '/' uri)
  let replaced := arguments.foldl
    (fun u a => pyReplaceFirst (':' :: a) ".+".toList u) new_uri
  '^' :: replaced ++ ['$']

/-- Tokens of the regular-expression fragment the route compiler
generates: literal characters (plain or `\`-escaped), `.` and `.+`. -/
inductive RTok where
  | lit (c : Char)
  | anyOne
  | anyPlus
deriving DecidableEq, Repr

/-- Regex metacharacters this model does not interpret (the generated
regexes contain none of them unless the registered pattern itself does). -/
def regexMeta : List Char := ['+', '*', '?', '(', ')', '[', ']', '|', '^', '$']

/-- Parser of the generated regex body into tokens: `\c` is the literal
`c`, `.+` matches one-or-more arbitrary characters, `.` one arbitrary
character, other non-metacharacters are literals; unsupported
metacharacters give `none`. -/
def parseRegexToks : Str → Option (List RTok)
  | [] => some []
  | [c] =>
      if c = '\\' then none
      else if c = '.' then some [RTok.anyOne]
      else if c ∈ regexMeta then none
      else some [RTok.lit c]
  | c :: d :: rest =>
      if c = '\\' then (parseRegexToks rest).map (RTok.lit d :: ·)
      else if c = '.' then
        if d = '+' then (parseRegexToks rest).map (RTok.anyPlus :: ·)
        else (parseRegexToks (d :: rest)).map (RTok.anyOne :: ·)
      else if c ∈ regexMeta then none
      else (parseRegexToks (d :: rest)).map (RTok.lit c :: ·)

/-- Backtracking matcher for the token fragment (anchored at both ends,
like the generated `^...$` regexes under `re.match`): literals match
verbatim, `anyOne` any single character, `anyPlus` one or more arbitrary
characters.  The match decision agrees with Python's greedy backtracking
engine on this fragment. -/
def rtokMatch : List RTok → Str → Bool
  | [], [] => true
  | [], _ :: _ => false
  | RTok.lit _ :: _, [] => false
  | RTok.lit c :: ts, x :: u => c = x && rtokMatch ts u
  | RTok.anyOne :: _, [] => false
  | RTok.anyOne :: ts, _ :: u => rtokMatch ts u
  | RTok.anyPlus :: _, [] => false
  | RTok.anyPlus :: ts, _ :: u => rtokMatch ts u || rtokMatch (RTok.anyPlus :: ts) u

/-- `re.match(regex, uri)` for the generated anchored regexes: the
leading `^` and trailing `$` are stripped, the body parsed into tokens
and matched; a body with unsupported constructs does not match (the
amended claim restricts patterns so that this case does not arise). -/
def pyReMatch (regex s : Str) : Bool :=
  match parseRegexToks (regex.drop 1).dropLast with
  | some toks => rtokMatch toks s
  | none => false

/-- The loop of `HttpRequestHandler.__get_arguments_from_dynamic_uri`
over the filtered pieces: a literal piece removes its first occurrence
from the remaining URI; a final `".+"` takes the whole remainder; a
non-final `".+"` takes the characters before the first occurrence of the
next piece (`uri.find` / slice / `replace(..., 1)`). -/
def argsLoop : List Str → Str → List Str
  | [], _ => []
  | p :: rest, uri =>
      if p ≠ ".+".toList then argsLoop rest (pyReplaceFirst p [] uri)
      else
        match rest with
        | [] => [uri]
        | next :: _ =>
            let position := pyFindInt next uri
            let argument := pySliceTo uri position
            argument :: argsLoop rest (pyReplaceFirst argument [] uri)

/-- `HttpRequestHandler.__get_arguments_from_dynamic_uri`: unescape
`"\/"` back to `"/"` in the de-anchored regex, split it into literal
pieces and `".+"` markers (dropping empties), then run the extraction
loop. -/
def getArgumentsFromDynamicUri (regex uri : Str) : List Str :=
  let regex1 := List.intercalate "/".toList
    (pySplit "\\/".toList (regex.drop 1).dropLast)
  let pieces := (pySplit "??".toList
    (List.intercalate "??.+??".toList (pySplit ".+".toList regex1))).filter
      (fun x => x ≠ [])
  argsLoop pieces uri

/-- Outcome of `HttpRequestHandler.__handle_api_request`: a dispatch of a
handler (identified by an abstract id) with positional arguments, a 405
with the allowed methods, or a 404. -/
inductive ApiOutcome where
  | dispatched (pattern method : Str) (handler : Nat) (args : List Str)
  | methodNotAllowed (allow : List Str)
  | notFound
deriving DecidableEq, Repr

/-- The dynamic-route loop of `__handle_api_request`: endpoints are tried
in registration order, those without `":"` skipped; the first whose
compiled regex matches wins; a missing method there gives 405 with the
route's methods. -/
def dynLoop (requestMethod stripped : Str) :
    List (Str × List (Str × Nat)) → ApiOutcome
  | [] => .notFound
  | (uri, resource) :: rest =>
      if ':' ∈ uri then
        let regex := getRegexFromDynamicUri uri
        if pyReMatch regex stripped then
          match alookup requestMethod resource with
          | some h => .dispatched uri requestMethod h
              (getArgumentsFromDynamicUri regex stripped)
          | none => .methodNotAllowed (resource.map (fun q => q.1))
        else dynLoop requestMethod stripped rest
      else dynLoop requestMethod stripped rest

/-- `HttpRequestHandler.__handle_api_request`: the API prefix is stripped
from the request URI; an exact (static) key match dispatches with no
arguments or answers 405; otherwise the dynamic loop runs; no match at
all gives 404. -/
def handleApiRequest (endpoints : List (Str × List (Str × Nat)))
    (requestMethod requestUri : Str) : ApiOutcome :=
  let stripped := requestUri.drop API_URI.length
  match alookup stripped endpoints with
  | some resource =>
      match alookup requestMethod resource with
      | some h => .dispatched stripped requestMethod h []
      | none => .methodNotAllowed (resource.map (fun q => q.1))
  | none => dynLoop requestMethod stripped endpoints

/-- Response mutation for an API outcome: a dispatch sets the body to the
handler's return value (`__end_api_request`); a 405 sets the status and
the `Allow` header (`__set_method_not_allowed`, `", ".join`); no match
sets 404. -/
def apiOutcomeResponse (sem : Nat → List Str → Option Bytes)
    (o : ApiOutcome) (r : HttpResponse) : HttpResponse :=
  match o with
  | .dispatched _ _ h args => setBody r (sem h args)
  | .methodNotAllowed allow =>
      setHeader (setStatus r 405) "Allow".toList
        (List.intercalate ", ".toList allow)
  | .notFound => setStatus r 404

/-- `HttpRequestHandler.__handle_app_request`: non-GET/HEAD methods give
405 with `Allow: GET, HEAD`; otherwise the file collaborator is consulted
with the URI minus its leading slash — a hit sets body then
`Content-Type`, a miss (IOError) sets 404. -/
def handleAppRequest (fileGet : Str → Option (Bytes × Str))
    (method uri : Str) (r : HttpResponse) : HttpResponse :=
  if method = "GET".toList ∨ method = "HEAD".toList then
    match fileGet (uri.drop 1) with
    | some (data, mime) =>
        setHeader (setBody r (some data)) "Content-Type".toList mime
    | none => setStatus r 404
  else
    setHeader (setStatus r 405) "Allow".toList "GET, HEAD".toList

/-- `HttpRequestHandler.__init__` with no hooks registered (the default):
parse the request — a parse error answers 400, while the uncaught
`ValueError` from a malformed `Content-Length` propagates past the
per-connection boundary (`.error`); then the method whitelist (else 400),
then the API-prefix test choosing API dispatch or the file branch.  The
returned response is the one `__end_handling` serializes and sends. -/
def handleRequest (endpoints : List (Str × List (Str × Nat)))
    (sem : Nat → List Str → Option Bytes)
    (fileGet : Str → Option (Bytes × Str)) (stream : Str) :
    Except PyErr HttpResponse :=
  let r0 := mkHttpResponse
  match parseHttpRequest stream with
  | .error .parseError => .ok (setStatus r0 400)
  | .error .valueError => .error .valueError
  | .ok req =>
      if req.method ∈ METHOD_WHITELIST then
        if req.requestUri = API_URI ∨
            (API_URI ++ "/".toList).isPrefixOf req.requestUri then
          .ok (apiOutcomeResponse sem
            (handleApiRequest endpoints req.method req.requestUri) r0)
        else .ok (handleAppRequest fileGet req.method req.requestUri r0)
      else .ok (setStatus r0 400)


/-! ## Spec-side route model (from the specification's words), compared
against the code's string-surgery pipeline -/

/-- A route pattern as the spec describes it: an ordered list of literal
segments and named dynamic segments (`:name`). -/
inductive Comp where
  | lit (s : Str)
  | dyn (name : Str)
deriving DecidableEq, Repr

/-- The textual form of one component inside a pattern. -/
def displayComp : Comp → Str
  | .lit s => s
  | .dyn n => ':' :: n

/-- The registered pattern string for a component list: `/`-separated
components, e.g. `[lit "a", dyn "x"]` renders as `"/a/:x"`. -/
def renderPattern (comps : List Comp) : Str :=
  (comps.map (fun c => '/' :: displayComp c)).flatten

/-- Modelled from the spec: the anchored matcher the claim describes —
literal segments (with their separating slashes) must match verbatim,
each named dynamic segment matches one-or-more arbitrary characters. -/
def specRtoks (comps : List Comp) : List RTok :=
  (comps.map (fun c =>
    match c with
    | .lit s => ('/' :: s).map RTok.lit
    | .dyn _ => [RTok.lit '/', RTok.anyPlus])).flatten

/-- The maximal literal chunks of a pattern between dynamic segments
(empty chunks kept, e.g. after a trailing dynamic segment); `buf` is the
chunk being accumulated. -/
def interludesGo : List Comp → Str → List Str
  | [], buf => [buf]
  | .lit s :: rest, buf => interludesGo rest (buf ++ '/' :: s)
  | .dyn _ :: rest, buf => (buf ++ ['/']) :: interludesGo rest []

/-- The literal chunks of a pattern. -/
def interludes (comps : List Comp) : List Str := interludesGo comps []

/-- Modelled from the spec: the extraction piece list — the literal
chunks with a `".+"` marker for each dynamic segment between them, empty
chunks dropped. -/
def specPieces (comps : List Comp) : List Str :=
  (List.intersperse ".+".toList (interludes comps)).filter (fun x => x ≠ [])

/-- Modelled from the spec's dispatch description, over a structured
registry: dynamic routes are tried in registration order; the first
pattern whose spec matcher accepts the path wins; a registered method
dispatches its handler with the extracted arguments, a missing method
gives 405 with the route's methods; no match gives 404. -/
def specDynDispatch (method path : Str) :
    List (List Comp × List (Str × Nat)) → ApiOutcome
  | [] => .notFound
  | (comps, resource) :: rest =>
      if rtokMatch (specRtoks comps) path then
        match alookup method resource with
        | some h => .dispatched (renderPattern comps) method h
            (argsLoop (specPieces comps) path)
        | none => .methodNotAllowed (resource.map (fun q => q.1))
      else specDynDispatch method path rest

/-- Characters allowed inside pattern components for the amended claim:
no regex metacharacter, backslash, dot, slash, colon or brace (braces
written by code point to keep them out of string literals). -/
abbrev plainPatternChar (c : Char) : Prop :=
  c ∉ regexMeta ∧ c ≠ '\\' ∧ c ≠ '.' ∧ c ≠ '/' ∧ c ≠ ':' ∧
  c ≠ Char.ofNat 123 ∧ c ≠ Char.ofNat 125

/-- Well-formedness of one component: nonempty and made of plain
characters. -/
abbrev wfComp : Comp → Prop
  | .lit s => s ≠ [] ∧ ∀ c ∈ s, plainPatternChar c
  | .dyn n => n ≠ [] ∧ ∀ c ∈ n, plainPatternChar c

/-- Whether a component is dynamic. -/
def isDynComp : Comp → Bool
  | .lit _ => false
  | .dyn _ => true

/-- Well-formedness of a pattern: every component well formed and at
least one dynamic segment (so the route is treated as dynamic). -/
abbrev wfComps (comps : List Comp) : Prop :=
  (∀ c ∈ comps, wfComp c) ∧ comps.any isDynComp = true

/-- Decidability of component well-formedness, by cases on the
component. -/
instance wfCompDecidable : (c : Comp) → Decidable (wfComp c)
  | .lit s =>
      inferInstanceAs (Decidable (s ≠ [] ∧ ∀ ch ∈ s, plainPatternChar ch))
  | .dyn n =>
      inferInstanceAs (Decidable (n ≠ [] ∧ ∀ ch ∈ n, plainPatternChar ch))


/-- Modelled from the spec: whether a piece list matches a path when each
`".+"` consumes one-or-more characters and literal pieces match
verbatim. -/
def piecesMatch : List Str → Str → Bool
  | [], u => u = []
  | p :: rest, u =>
      if p = ".+".toList then
        (List.range u.length).any (fun k => piecesMatch rest (u.drop (k + 1)))
      else p.isPrefixOf u && piecesMatch rest (u.drop p.length)

/-- Modelled from the spec's words ("matches one-or-more characters
greedily up to the next literal boundary"): greedy extraction — each
dynamic span takes the longest split that still lets the remaining pieces
match. -/
def specGreedyExtract : List Str → Str → Option (List Str)
  | [], u => if u = [] then some [] else none
  | p :: rest, u =>
      if p = ".+".toList then
        match (((List.range u.length).reverse).map (fun k => k + 1)).find?
            (fun k => piecesMatch rest (u.drop k)) with
        | some k =>
            match specGreedyExtract rest (u.drop k) with
            | some args => some (u.take k :: args)
            | none => none
        | none => none
      else
        if p.isPrefixOf u then specGreedyExtract rest (u.drop p.length)
        else none


/-- The dynamic-segment names of a pattern, in order. -/
def dynNames (comps : List Comp) : List Str :=
  comps.filterMap (fun c => match c with | .dyn n => some n | .lit _ => none)

/-- The regex body a component contributes after `":name"` replacement:
the literal text for a literal segment, `".+"` for a dynamic one. -/
def bodyOf : Comp → Str
  | .lit s => s
  | .dyn _ => ".+".toList

/-- The escaped pattern before `":name"` replacement: each component as
`"\/" ++ display`. -/
def escRenderD (comps : List Comp) : Str :=
  (comps.map (fun c => '\\' :: '/' :: displayComp c)).flatten

/-- The regex body after all replacements: each component as
`"\/" ++ body`. -/
def regexCore (comps : List Comp) : Str :=
  (comps.map (fun c => '\\' :: '/' :: bodyOf c)).flatten

/-- The unescaped regex body: each component as `"/" ++ body`. -/
def unescCore (comps : List Comp) : Str :=
  (comps.map (fun c => '/' :: bodyOf c)).flatten

/-- The rendered prefix of a pattern up to (excluding) its first colon. -/
def preColon : List Comp → Str
  | [] => []
  | .lit s :: r => '/' :: s ++ preColon r
  | .dyn _ :: _ => ['/']

/-- The chunks following each colon of a rendered pattern, in order. -/
def colonChunks : List Comp → List Str
  | [] => []
  | .lit _ :: r => colonChunks r
  | .dyn n :: r => (n ++ preColon r) :: colonChunks r

/-! ## Dictionary lemmas -/

theorem dlookup_derase_self (k : Str) (h : List (Str × Str)) :
    dlookup k (derase k h) = none := by
  induction h with
  | nil => rfl
  | cons p t ih =>
      obtain ⟨a, b⟩ := p
      by_cases hp : a = k
      · simpa [derase, hp] using ih
      · simpa [derase, hp, dlookup] using ih

theorem dlookup_dupdate_self (k v : Str) (h : List (Str × Str)) :
    (dlookup k h).isSome → dlookup k (dupdate k v h) = some v := by
  induction h with
  | nil => intro hs; simp [dlookup] at hs
  | cons p t ih =>
      obtain ⟨a, b⟩ := p
      intro hs
      by_cases hp : a = k
      · subst hp
        simp [dupdate, dlookup]
      · simp only [dlookup, hp, if_false, ite_false] at hs
        simp only [dupdate, hp, if_false, ite_false]
        simp only [dlookup, hp, if_false, ite_false]
        exact ih hs

theorem dlookup_dupdate_ne (k k' v : Str) (h : List (Str × Str)) (hk : k' ≠ k) :
    dlookup k (dupdate k' v h) = dlookup k h := by
  induction h with
  | nil => rfl
  | cons p t ih =>
      obtain ⟨a, b⟩ := p
      by_cases hp : a = k'
      · subst hp
        simp [dupdate, dlookup, hk, Ne.symm hk]
      · simp only [dupdate, hp, if_false, ite_false]
        by_cases hpk : a = k
        · simp [dlookup, hpk]
        · simp [dlookup, hpk, ih]

theorem dlookup_append (k : Str) (h h' : List (Str × Str)) :
    dlookup k (h ++ h') =
      match dlookup k h with
      | some v => some v
      | none => dlookup k h' := by
  induction h with
  | nil => simp [dlookup]
  | cons p t ih =>
      obtain ⟨a, b⟩ := p
      by_cases hp : a = k
      · simp [dlookup, hp]
      · simp [dlookup, hp, ih]

theorem dlookup_dinsert_self (k v : Str) (h : List (Str × Str)) :
    dlookup k (dinsert k v h) = some v := by
  unfold dinsert
  split
  · exact dlookup_dupdate_self k v h (by assumption)
  · rename_i hs
    rw [dlookup_append]
    have hnone : dlookup k h = none := by
      cases hl : dlookup k h with
      | none => rfl
      | some w => rw [hl] at hs; simp at hs
    rw [hnone]
    simp [dlookup]

theorem dlookup_dinsert_ne (k k' v : Str) (h : List (Str × Str)) (hk : k' ≠ k) :
    dlookup k (dinsert k' v h) = dlookup k h := by
  unfold dinsert
  split
  · exact dlookup_dupdate_ne k k' v h hk
  · rw [dlookup_append]
    cases hl : dlookup k h with
    | some w => rfl
    | none => simp [dlookup, hk]

/-! ## HttpResponse setter lemmas -/

theorem setStatus_statusCode (r : HttpResponse) (c : Int) :
    (setStatus r c).statusCode = c := by
  unfold setStatus
  split
  · split <;> simp [bodyNone]
  · simp

theorem slookup_200 : slookup 200 HTTP_STATUS = some "OK".toList := by decide

theorem slookup_204 : slookup 204 HTTP_STATUS = some "No Content".toList := by
  decide

theorem setStatus_200 (r : HttpResponse) :
    setStatus r 200 =
      { r with statusCode := 200, status := "200 OK".toList } := by
  unfold setStatus
  rw [slookup_200]
  norm_num
  rfl

theorem setStatus_204 (r : HttpResponse) :
    setStatus r 204 =
      { r with statusCode := 204, status := "204 No Content".toList,
               body := none,
               headers := derase contentLengthKey r.headers } := by
  unfold setStatus
  rw [slookup_204]
  norm_num [bodyNone]
  rfl

theorem setBody_some (r : HttpResponse) (value : Bytes) :
    setBody r (some value) =
      { (if r.statusCode = 204 then setStatus r 200 else r) with
          body := some value,
          headers := dinsert contentLengthKey (natStr value.length)
            (if r.statusCode = 204 then setStatus r 200 else r).headers } := rfl

/-- The invariant behind C6: reachable responses at status 204 have no
body and no `Content-Length` header. -/
theorem reachable_inv_204 :
    ∀ r : HttpResponse, ReachableResponse r → r.statusCode = 204 →
      r.body = none ∧ dlookup contentLengthKey r.headers = none := by
  intro r hr
  induction hr with
  | init => decide
  | @status r c _ _ =>
      intro h204
      have hc : c = 204 := by rw [← setStatus_statusCode r c]; exact h204
      subst hc
      rw [setStatus_204]
      exact ⟨rfl, dlookup_derase_self _ _⟩
  | @body r v _ ih =>
      intro h204
      match v with
      | none => exact ⟨rfl, dlookup_derase_self _ _⟩
      | some value =>
          exfalso
          rw [setBody_some] at h204
          by_cases hr204 : r.statusCode = 204
          · rw [if_pos hr204, setStatus_200] at h204
            simp at h204
          · rw [if_neg hr204] at h204
            exact hr204 h204
  | @header r k v hk _ ih =>
      intro h204
      have hih := ih h204
      refine ⟨hih.1, ?_⟩
      show dlookup contentLengthKey (dinsert k v r.headers) = none
      rw [dlookup_dinsert_ne _ _ _ _ hk]
      exact hih.2

/-- C6: whenever a reachable response has status code 204 its body is
absent and its headers contain no `Content-Length` entry; and assigning a
non-empty body while the status is 204 changes the status to 200
("200 OK") and sets `Content-Length` to the body's exact byte length. -/
theorem c6_status_204_invariant :
    (∀ r : HttpResponse, ReachableResponse r → r.statusCode = 204 →
       r.body = none ∧ dlookup contentLengthKey r.headers = none) ∧
    (∀ (r : HttpResponse) (v : Bytes), r.statusCode = 204 → v ≠ [] →
       (setBody r (some v)).statusCode = 200 ∧
       (setBody r (some v)).status = "200 OK".toList ∧
       (setBody r (some v)).body = some v ∧
       dlookup contentLengthKey (setBody r (some v)).headers =
         some (natStr v.length)) := by
  refine ⟨reachable_inv_204, ?_⟩
  intro r v h204 _
  rw [setBody_some, if_pos h204, setStatus_200]
  exact ⟨rfl, rfl, rfl, dlookup_dinsert_self _ _ _⟩

/-- Witness for C6 at concrete inputs: the fresh response (status 204) and
the non-empty body `[104, 105]` (two bytes). -/
theorem c6_status_204_invariant_witness :
    (mkHttpResponse.body = none ∧
       dlookup contentLengthKey mkHttpResponse.headers = none) ∧
    ((setBody mkHttpResponse (some [104, 105])).statusCode = 200 ∧
       (setBody mkHttpResponse (some [104, 105])).status = "200 OK".toList ∧
       (setBody mkHttpResponse (some [104, 105])).body = some [104, 105] ∧
       dlookup contentLengthKey
         (setBody mkHttpResponse (some [104, 105])).headers =
           some (natStr 2)) :=
  ⟨c6_status_204_invariant.1 mkHttpResponse ReachableResponse.init (by decide),
   c6_status_204_invariant.2 mkHttpResponse [104, 105] (by decide) (by decide)⟩

/-- C9: setting a status code outside the reason-phrase table produces the
status line `"501 Not Implemented"` exactly (so the serialized status line
does not retain the unknown code value), while a code in the table
produces that code followed by its fixed reason phrase. -/
theorem c9_unknown_status_code :
    ∀ (c : Int) (r : HttpResponse),
      (slookup c HTTP_STATUS = none →
        (setStatus r c).status = "501 Not Implemented".toList ∧
        buildResponse (setStatus mkHttpResponse c) =
          "HTTP/1.1 501 Not Implemented\r\n\r\n".toList.map Char.toNat) ∧
      (∀ ph, slookup c HTTP_STATUS = some ph →
        (setStatus r c).status = intStr c ++ " ".toList ++ ph) := by
  intro c r
  constructor
  · intro hnone
    have h1 : ∀ r' : HttpResponse, setStatus r' c =
        { r' with statusCode := c, status := "501 Not Implemented".toList } := by
      intro r'
      unfold setStatus
      rw [hnone]
    constructor
    · rw [h1]
    · rw [h1]
      rfl
  · intro ph hsome
    unfold setStatus
    rw [hsome]

/-- Witness for C9 at the concrete codes 999 (outside the table) and 200
(inside the table). -/
theorem c9_unknown_status_code_witness :
    ((setStatus mkHttpResponse 999).status = "501 Not Implemented".toList ∧
      buildResponse (setStatus mkHttpResponse 999) =
        "HTTP/1.1 501 Not Implemented\r\n\r\n".toList.map Char.toNat) ∧
    (setStatus mkHttpResponse 200).status = intStr 200 ++ " ".toList ++ "OK".toList :=
  ⟨(c9_unknown_status_code 999 mkHttpResponse).1 (by decide),
   (c9_unknown_status_code 200 mkHttpResponse).2 "OK".toList (by decide)⟩

/-- C10: assigning an empty (but present) byte sequence as the body while
the status is 204 also promotes the status to 200 and sets
`Content-Length` to "0": the promotion is keyed on the body being
non-absent, not on it being non-empty. -/
theorem c10_empty_body_promotes :
    ∀ r : HttpResponse, r.statusCode = 204 →
      (setBody r (some [])).statusCode = 200 ∧
      (setBody r (some [])).status = "200 OK".toList ∧
      (setBody r (some [])).body = some [] ∧
      dlookup contentLengthKey (setBody r (some [])).headers =
        some "0".toList := by
  intro r h204
  rw [setBody_some, if_pos h204, setStatus_200]
  exact ⟨rfl, rfl, rfl, dlookup_dinsert_self _ _ _⟩

/-- Witness for C10 at the fresh response (whose status code is 204). -/
theorem c10_empty_body_promotes_witness :
    (setBody mkHttpResponse (some [])).statusCode = 200 ∧
    (setBody mkHttpResponse (some [])).status = "200 OK".toList ∧
    (setBody mkHttpResponse (some [])).body = some [] ∧
    dlookup contentLengthKey (setBody mkHttpResponse (some [])).headers =
      some "0".toList :=
  c10_empty_body_promotes mkHttpResponse (by decide)

theorem slookup_101 :
    slookup 101 HTTP_STATUS = some "Switching Protocols".toList := by decide

theorem setStatus_101 (r : HttpResponse) :
    setStatus r 101 =
      { r with statusCode := 101,
               status := "101 Switching Protocols".toList } := by
  unfold setStatus
  rw [slookup_101]
  norm_num
  rfl

/-- C7: when a dispatched route declares an upgrade handler, the response
carries status 101, headers `Upgrade: websocket` and
`Connection: Upgrade`, and a `Sec-WebSocket-Accept` header equal to
base64(SHA-1(`Sec-WebSocket-Key` value ++ the fixed GUID)); for the
RFC 6455 sample key `dGhlIHNhbXBsZSBub25jZQ==` the accept value is
`s3pPLMBiTxaQ9kYGzzhZRbK+xOo=`. -/
theorem c7_websocket_upgrade :
    (∀ (reqHeaders : List (Str × Str)) (r : HttpResponse) (key : Str),
      dlookup "Sec-WebSocket-Key".toList reqHeaders = some key →
      (handleWebSocketRequest reqHeaders r).statusCode = 101 ∧
      (handleWebSocketRequest reqHeaders r).status =
        "101 Switching Protocols".toList ∧
      dlookup "Upgrade".toList (handleWebSocketRequest reqHeaders r).headers =
        some "websocket".toList ∧
      dlookup "Connection".toList (handleWebSocketRequest reqHeaders r).headers =
        some "Upgrade".toList ∧
      dlookup "Sec-WebSocket-Accept".toList
          (handleWebSocketRequest reqHeaders r).headers =
        some (b64encode (sha1 (utf8Encode (key ++ wsGUID))))) ∧
    webSocketAccept "dGhlIHNhbXBsZSBub25jZQ==".toList =
      "s3pPLMBiTxaQ9kYGzzhZRbK+xOo=".toList := by
  constructor
  · intro reqHeaders r key hkey
    unfold handleWebSocketRequest
    rw [hkey, setStatus_101]
    refine ⟨rfl, rfl, ?_, ?_, ?_⟩
    · show dlookup _ (dinsert _ _ (dinsert _ _ (dinsert _ _ _))) = _
      rw [dlookup_dinsert_ne _ _ _ _ (by decide),
          dlookup_dinsert_ne _ _ _ _ (by decide),
          dlookup_dinsert_self]
    · show dlookup _ (dinsert _ _ (dinsert _ _ (dinsert _ _ _))) = _
      rw [dlookup_dinsert_ne _ _ _ _ (by decide), dlookup_dinsert_self]
    · show dlookup _ (dinsert _ _ (dinsert _ _ (dinsert _ _ _))) = _
      rw [dlookup_dinsert_self]
      rfl
  · decide

/-- Witness for C7 at a concrete request holding the RFC 6455 sample
`Sec-WebSocket-Key`. -/
theorem c7_websocket_upgrade_witness :
    (handleWebSocketRequest
        [("Sec-WebSocket-Key".toList, "dGhlIHNhbXBsZSBub25jZQ==".toList)]
        mkHttpResponse).statusCode = 101 ∧
    (handleWebSocketRequest
        [("Sec-WebSocket-Key".toList, "dGhlIHNhbXBsZSBub25jZQ==".toList)]
        mkHttpResponse).status = "101 Switching Protocols".toList ∧
    dlookup "Upgrade".toList
      (handleWebSocketRequest
        [("Sec-WebSocket-Key".toList, "dGhlIHNhbXBsZSBub25jZQ==".toList)]
        mkHttpResponse).headers = some "websocket".toList ∧
    dlookup "Connection".toList
      (handleWebSocketRequest
        [("Sec-WebSocket-Key".toList, "dGhlIHNhbXBsZSBub25jZQ==".toList)]
        mkHttpResponse).headers = some "Upgrade".toList ∧
    dlookup "Sec-WebSocket-Accept".toList
      (handleWebSocketRequest
        [("Sec-WebSocket-Key".toList, "dGhlIHNhbXBsZSBub25jZQ==".toList)]
        mkHttpResponse).headers =
      some (b64encode (sha1 (utf8Encode
        ("dGhlIHNhbXBsZSBub25jZQ==".toList ++ wsGUID)))) :=
  c7_websocket_upgrade.1
    [("Sec-WebSocket-Key".toList, "dGhlIHNhbXBsZSBub25jZQ==".toList)]
    mkHttpResponse "dGhlIHNhbXBsZSBub25jZQ==".toList (by decide)

/-- C4 (code bug): encoding the two-byte text message `[104, 105]` gives a
single FIN-set text frame which, masked as by a client, decodes back to
the original message; but encoding the 126-byte message `replicate 126
97` gives a frame using the extended (126) length form, and feeding its
masked form to the read loop raises the `TypeError` caused by the
un-indexed `struct.unpack_from` tuple instead of delivering the message,
so the encode/mask/decode round trip fails for messages of 126 bytes or
more. -/
theorem c4_roundtrip_code_bug :
    wsReadMessage (((getChunks 1 [104, 105]).map (clientMask [1, 2, 3, 4])).flatten) =
      .msg [104, 105] [] ∧
    getChunks 1 [104, 105] = [[0x81, 2, 104, 105]] ∧
    getChunks 1 (List.replicate 126 97) =
      [[0x81, 126, 0, 126] ++ List.replicate 126 97] ∧
    wsReadMessage (((getChunks 1 (List.replicate 126 97)).map
        (clientMask [7, 1, 9, 3])).flatten) = .errTypeTuple := by
  refine ⟨by decide, by decide, by decide, by decide⟩

/-- C5 (code bug): the decode loop parses a small masked frame exactly as
the claim states (FIN, opcode, mask bit, 7-bit length, XOR unmasking with
`maskingKey[i mod 4]` — shown on the RFC 6455 masked "Hello" example),
but a frame whose 7-bit length field is 126 is not decoded by reading a
2-byte big-endian true length: the source leaves `payload_length` as the
tuple returned by `struct.unpack_from` and then raises `TypeError` at
`bytearray(payload_length)` / `recv_into(payload, payload_length)`. -/
theorem c5_decode_code_bug :
    wsReadMessage [0x81, 0x85, 0x37, 0xfa, 0x21, 0x3d, 0x7f, 0x9f, 0x4d, 0x51, 0x58] =
      .msg [72, 101, 108, 108, 111] [] ∧
    wsReadMessage ([0x81, 0xFE, 0x00, 0x7E] ++ [7, 1, 9, 3] ++
        xorMask [7, 1, 9, 3] 0 (List.replicate 126 97)) = .errTypeTuple := by
  refine ⟨by decide, by decide⟩

/-! ## Decimal rendering and `int()` parsing lemmas -/

theorem natStrGo_eq_natRep :
    ∀ (fuel n : Nat) (acc : Str), n < 10 ^ (fuel + 1) →
      natStrGo (fuel + 1) n acc = natRep n ++ acc := by
  intro fuel
  induction fuel with
  | zero =>
      intro n acc hn
      have h10 : n < 10 := by simpa using hn
      rw [natRep]
      simp [natStrGo, h10, Nat.mod_eq_of_lt h10]
  | succ fuel ih =>
      intro n acc hn
      by_cases h10 : n < 10
      · rw [natRep]
        simp [natStrGo, h10, Nat.mod_eq_of_lt h10]
      · rw [natRep]
        simp only [dif_neg h10]
        show natStrGo (fuel + 2) n acc = _
        rw [show natStrGo (fuel + 2) n acc =
          natStrGo (fuel + 1) (n / 10) (Char.ofNat (48 + n % 10) :: acc) from by
            conv_lhs => rw [natStrGo]
            simp [h10]]
        rw [ih (n / 10) _ (by
          rw [Nat.div_lt_iff_lt_mul (by omega : (0:Nat) < 10)]
          calc n < 10 ^ (fuel + 2) := hn
            _ = 10 ^ (fuel + 1) * 10 := by ring)]
        simp

theorem natStr_eq_natRep (n : Nat) : natStr n = natRep n := by
  have h : n < 10 ^ (n + 1) := by
    calc n < 10 ^ n := Nat.lt_pow_self (by omega) n
      _ ≤ 10 ^ (n + 1) := Nat.pow_le_pow_right (by omega) (Nat.le_succ n)
  unfold natStr
  rw [natStrGo_eq_natRep n n [] h, List.append_nil]

theorem digitChar_isDigit (d : Nat) (h : d < 10) :
    (Char.ofNat (48 + d)).isDigit = true := by
  interval_cases d <;> decide

theorem digitChar_toNat (d : Nat) (h : d < 10) :
    (Char.ofNat (48 + d)).toNat - 48 = d := by
  interval_cases d <;> decide

theorem digitChar_not_ws (d : Nat) (h : d < 10) :
    (Char.ofNat (48 + d)).isWhitespace = false := by
  interval_cases d <;> decide

theorem digitChar_ne_plus_minus (d : Nat) (h : d < 10) :
    Char.ofNat (48 + d) ≠ '+' ∧ Char.ofNat (48 + d) ≠ '-' := by
  interval_cases d <;> decide

theorem natRep_chars (n : Nat) :
    ∀ c ∈ natRep n, ∃ d, d < 10 ∧ c = Char.ofNat (48 + d) := by
  induction n using Nat.strong_induction_on with
  | _ n ih =>
      by_cases h10 : n < 10
      · rw [natRep]
        simp only [dif_pos h10, List.mem_singleton]
        intro c hc
        exact ⟨n, h10, hc⟩
      · rw [natRep]
        simp only [dif_neg h10, List.mem_append, List.mem_singleton]
        intro c hc
        rcases hc with hc | hc
        · exact ih (n / 10) (Nat.div_lt_self (by omega) (by omega)) c hc
        · exact ⟨n % 10, Nat.mod_lt _ (by omega), hc⟩

theorem natRep_ne_nil (n : Nat) : natRep n ≠ [] := by
  rw [natRep]
  split <;> simp

theorem digitsValGo_natRep :
    ∀ (n : Nat), ∀ (v : Nat) (rest : Str),
      digitsValGo v (natRep n ++ rest) =
        digitsValGo (v * 10 ^ (natRep n).length + n) rest := by
  intro n
  induction n using Nat.strong_induction_on with
  | _ n ih =>
      intro v rest
      by_cases h10 : n < 10
      · rw [natRep]
        simp only [dif_pos h10, List.singleton_append, List.length_singleton]
        rw [digitsValGo, if_pos (digitChar_isDigit n h10),
            digitChar_toNat n h10]
        norm_num
      · have hsplit : natRep n = natRep (n / 10) ++ [Char.ofNat (48 + n % 10)] := by
          conv_lhs => rw [natRep]
          rw [dif_neg h10]
        rw [hsplit]
        simp only [List.append_assoc, List.singleton_append,
          List.length_append, List.length_singleton]
        rw [ih (n / 10) (Nat.div_lt_self (by omega) (by omega))]
        rw [digitsValGo, if_pos (digitChar_isDigit (n % 10) (Nat.mod_lt _ (by omega))),
            digitChar_toNat (n % 10) (Nat.mod_lt _ (by omega))]
        congr 1
        have hdm : n / 10 * 10 + n % 10 = n := by omega
        calc (v * 10 ^ (natRep (n / 10)).length + n / 10) * 10 + n % 10
            = v * (10 ^ (natRep (n / 10)).length * 10) + (n / 10 * 10 + n % 10) := by
              ring
          _ = v * 10 ^ ((natRep (n / 10)).length + 1) + n := by
              rw [hdm, pow_succ]

theorem digitsVal_natRep (n : Nat) : digitsVal (natRep n) = some n := by
  rcases hrep : natRep n with _ | ⟨c, t⟩
  · exact absurd hrep (natRep_ne_nil n)
  · show digitsValGo 0 (c :: t) = some n
    rw [← hrep, ← List.append_nil (natRep n), digitsValGo_natRep]
    simp [digitsValGo]

theorem dropWhile_eq_self_of_not (p : Char → Bool) :
    ∀ l : Str, (∀ c ∈ l, p c = false) → l.dropWhile p = l := by
  intro l hl
  cases l with
  | nil => rfl
  | cons c t =>
      rw [List.dropWhile_cons, if_neg]
      simp [hl c (by simp)]

theorem pyStrip_natRep (n : Nat) : pyStrip (natRep n) = natRep n := by
  have hd : ∀ c ∈ natRep n, c.isWhitespace = false := by
    intro c hc
    obtain ⟨d, hdn, rfl⟩ := natRep_chars n c hc
    exact digitChar_not_ws d hdn
  unfold pyStrip
  rw [dropWhile_eq_self_of_not _ _ hd,
      dropWhile_eq_self_of_not _ _ (by simpa using hd), List.reverse_reverse]

theorem pyInt_natStr (n : Nat) : pyInt (natStr n) = some (n : Int) := by
  rw [natStr_eq_natRep]
  unfold pyInt
  rw [pyStrip_natRep]
  rcases hrep : natRep n with _ | ⟨c, t⟩
  · exact absurd hrep (natRep_ne_nil n)
  · have hc : ∃ d, d < 10 ∧ c = Char.ofNat (48 + d) :=
      natRep_chars n c (by rw [hrep]; simp)
    obtain ⟨d, hdn, rfl⟩ := hc
    rw [pyIntCore, if_neg (digitChar_ne_plus_minus d hdn).1,
        if_neg (digitChar_ne_plus_minus d hdn).2,
        ← hrep, digitsVal_natRep]
    rfl

/-! ## Stream lemmas for the request parser -/

theorem translateNewlines_cons (c : Char) (w : Str) (hc : c ≠ '\r') (hw : w ≠ []) :
    translateNewlines (c :: w) = c :: translateNewlines w := by
  cases w with
  | nil => exact absurd rfl hw
  | cons d t => simp [translateNewlines, hc]

theorem translateNewlines_crlf (xs rest : Str) (hx : '\r' ∉ xs) :
    translateNewlines (xs ++ '\r' :: '\n' :: rest) =
      xs ++ '\n' :: translateNewlines rest := by
  induction xs with
  | nil => simp [translateNewlines]
  | cons c t ih =>
      have hc : c ≠ '\r' := fun h => hx (by simp [h])
      have ht : '\r' ∉ t := fun h => hx (by simp [h])
      rw [List.cons_append, translateNewlines_cons c _ hc (by simp), ih ht,
          List.cons_append]

theorem translateNewlines_id (xs : Str) (hx : '\r' ∉ xs) :
    translateNewlines xs = xs := by
  induction xs with
  | nil => rfl
  | cons c t ih =>
      have hc : c ≠ '\r' := fun h => hx (by simp [h])
      have ht : '\r' ∉ t := fun h => hx (by simp [h])
      cases t with
      | nil => simp [translateNewlines, hc]
      | cons d t' => rw [translateNewlines_cons c _ hc (by simp), ih ht]

theorem translateNewlines_lines (lines : List Str) (tail : Str)
    (hl : ∀ l ∈ lines, '\r' ∉ l) (ht : '\r' ∉ tail) :
    translateNewlines ((lines.map (fun l => l ++ "\r\n".toList)).flatten ++ tail) =
      (lines.map (fun l => l ++ "\n".toList)).flatten ++ tail := by
  induction lines with
  | nil => simpa using translateNewlines_id tail ht
  | cons l ls ih =>
      simp only [List.map_cons, List.flatten_cons, List.append_assoc]
      have hshape : l ++ ("\r\n".toList ++ ((ls.map (fun l => l ++ "\r\n".toList)).flatten ++ tail)) =
          l ++ '\r' :: '\n' :: ((ls.map (fun l => l ++ "\r\n".toList)).flatten ++ tail) := rfl
      rw [hshape, translateNewlines_crlf _ _ (hl l (by simp)),
          ih (fun x hx => hl x (by simp [hx]))]
      rfl

theorem readLine_append (xs rest : Str) (hx : '\n' ∉ xs) :
    readLine (xs ++ '\n' :: rest) = (xs ++ ['\n'], rest) := by
  induction xs with
  | nil => simp [readLine]
  | cons c t ih =>
      have hc : c ≠ '\n' := fun h => hx (by simp [h])
      have ht : '\n' ∉ t := fun h => hx (by simp [h])
      rw [List.cons_append, readLine]
      simp only [hc, if_false, ite_false]
      rw [ih ht]
      simp

theorem pySplitChar_append (sep : Char) (a b : Str) (ha : sep ∉ a) :
    pySplitChar sep (a ++ sep :: b) = a :: pySplitChar sep b := by
  induction a with
  | nil => simp [pySplitChar]
  | cons c t ih =>
      have hc : c ≠ sep := fun h => ha (by simp [h])
      have ht : sep ∉ t := fun h => ha (by simp [h])
      rw [List.cons_append, pySplitChar]
      simp only [hc, if_false, ite_false]
      rw [ih ht]

theorem pySplitChar_none (sep : Char) (a : Str) (ha : sep ∉ a) :
    pySplitChar sep a = [a] := by
  induction a with
  | nil => rfl
  | cons c t ih =>
      have hc : c ≠ sep := fun h => ha (by simp [h])
      have ht : sep ∉ t := fun h => ha (by simp [h])
      rw [pySplitChar]
      simp only [hc, if_false, ite_false]
      rw [ih ht]

theorem strFind_header_sep (a b : Str) (ha : ':' ∉ a) :
    strFind ": ".toList (a ++ ": ".toList ++ b) = some a.length := by
  induction a with
  | nil => simp [strFind, List.isPrefixOf]
  | cons c t ih =>
      have hc : c ≠ ':' := fun h => ha (by simp [h])
      have ht : ':' ∉ t := fun h => ha (by simp [h])
      rw [List.cons_append]
      simp only [strFind, List.append_eq]
      have hpre : (": ".toList).isPrefixOf (c :: (t ++ ": ".toList ++ b)) = false := by
        simp [List.isPrefixOf]
        intro h
        exact absurd h.symm hc
      rw [hpre]
      simp only [Bool.false_eq_true, if_false, ite_false]
      rw [ih ht]
      simp

theorem strFind_extend_last (x y d : Char) (v : Str) (hd : d ≠ y)
    (hv : strFind [x, y] v = none) : strFind [x, y] (v ++ [d]) = none := by
  induction v with
  | nil =>
      have : [x, y].isPrefixOf [d] = false := by simp [List.isPrefixOf]
      simp [strFind, this]
  | cons c t ih =>
      simp only [strFind, List.append_eq] at hv
      by_cases hpre : [x, y].isPrefixOf (c :: t)
      · rw [hpre] at hv
        simp at hv
      · simp only [hpre, Bool.false_eq_true, if_false, ite_false] at hv
        have ht : strFind [x, y] t = none := by
          rcases h : strFind [x, y] t with _ | i
          · rfl
          · rw [h] at hv; simp at hv
        rw [List.cons_append]
        simp only [strFind, List.append_eq]
        have hpre2 : [x, y].isPrefixOf (c :: (t ++ [d])) = false := by
          cases t with
          | nil =>
              simp only [List.nil_append]
              simp [List.isPrefixOf]
              intro _ h
              exact absurd h.symm hd
          | cons e t' =>
              simp only [List.cons_append]
              simp only [List.isPrefixOf, List.isPrefixOf_nil_left] at hpre ⊢
              simpa using fun h1 h2 => hpre (by simp [h1, h2])
        rw [hpre2]
        simp only [Bool.false_eq_true, if_false, ite_false]
        rw [ih ht]

theorem pySplitGo_none (fuel : Nat) (sep s : Str) (hf : 1 ≤ fuel)
    (hs : strFind sep s = none) : pySplitGo fuel sep s = [s] := by
  cases fuel with
  | zero => omega
  | succ f => rw [pySplitGo, hs]

theorem pySplitGo_some (f : Nat) (sep s : Str) (i : Nat)
    (h : strFind sep s = some i) :
    pySplitGo (f + 1) sep s =
      s.take i :: pySplitGo f sep (s.drop (i + sep.length)) := by
  rw [pySplitGo, h]

theorem pySplit_header_line (k w : Str) (hk : ':' ∉ k)
    (hw : strFind ": ".toList w = none) :
    pySplit ": ".toList (k ++ ": ".toList ++ w) = [k, w] := by
  unfold pySplit
  obtain ⟨f, hf, hf2⟩ : ∃ f, (k ++ ": ".toList ++ w).length + 1 = f + 1 ∧ 1 ≤ f := by
    refine ⟨(k ++ ": ".toList ++ w).length, rfl, ?_⟩
    simp
    omega
  rw [hf, pySplitGo_some f _ _ _ (strFind_header_sep k w hk)]
  have htake : (k ++ ": ".toList ++ w).take k.length = k := by
    rw [List.append_assoc]
    exact List.take_left k _
  have hdrop : (k ++ ": ".toList ++ w).drop (k.length + (": ".toList).length) = w := by
    have h2 : k.length + (": ".toList).length = (k ++ ": ".toList).length := by simp
    rw [h2]
    exact List.drop_left _ w
  rw [htake, hdrop, pySplitGo_none f _ _ hf2 hw]

theorem head_all_not_ws (s : Str)
    (h : s.head?.all (fun c => !c.isWhitespace) = true) :
    ∀ c, s.head? = some c → ¬c.isWhitespace := by
  intro c hc
  rw [hc] at h
  simpa using h

theorem getLast_all_not_ws (s : Str)
    (h : s.getLast?.all (fun c => !c.isWhitespace) = true) :
    ∀ c, s.getLast? = some c → ¬c.isWhitespace := by
  intro c hc
  rw [hc] at h
  simpa using h

theorem pyStrip_append_newline (v : Str)
    (h1 : ∀ c, v.head? = some c → ¬c.isWhitespace)
    (h2 : ∀ c, v.getLast? = some c → ¬c.isWhitespace) :
    pyStrip (v ++ ['\n']) = v := by
  cases v with
  | nil => decide
  | cons c t =>
      unfold pyStrip
      have hc : c.isWhitespace = false := by
        simpa using h1 c (by simp)
      rw [List.cons_append, List.dropWhile_cons, if_neg (by simp [hc])]
      have hrev : (c :: (t ++ ['\n'])).reverse = '\n' :: (c :: t).reverse := by
        simp
      rw [hrev, List.dropWhile_cons, if_pos (by decide)]
      have hlast : ((c :: t).reverse).dropWhile Char.isWhitespace = (c :: t).reverse := by
        rcases hX : (c :: t).reverse with _ | ⟨y, Y⟩
        · simp at hX
        · rw [List.dropWhile_cons]
          have hy : y.isWhitespace = false := by
            have hg : (c :: t).getLast? = some y := by
              rw [← List.head?_reverse, hX]
              rfl
            simpa using h2 y hg
          simp [hy]
      rw [hlast, List.reverse_reverse]

theorem parseHeadersGo_succ (f : Nat) (s : Str) (acc : List (Str × Str)) :
    parseHeadersGo (f + 1) s acc =
      (if (readLine s).1 = "\r\n".toList ∨ (readLine s).1 = "\n".toList then
        .ok (acc, (readLine s).2)
      else
        match pySplit ": ".toList (readLine s).1 with
        | p0 :: p1 :: _ => parseHeadersGo f (readLine s).2 (dinsert p0 (pyStrip p1) acc)
        | _ => .error .parseError) := by
  rw [parseHeadersGo]


theorem parseHeadersGo_lines :
    ∀ (hdrs : List (Str × Str)) (tail : Str) (acc : List (Str × Str)) (fuel : Nat),
      (∀ p ∈ hdrs, plainHeader p) →
      ((hdrs.map headerLine).flatten ++ '\n' :: tail).length < fuel →
      parseHeadersGo fuel ((hdrs.map headerLine).flatten ++ '\n' :: tail) acc =
        .ok (hdrs.foldl (fun d p => dinsert p.1 p.2 d) acc, tail) := by
  intro hdrs
  induction hdrs with
  | nil =>
      intro tail acc fuel _ hfuel
      obtain ⟨f, rfl⟩ : ∃ f, fuel = f + 1 :=
        ⟨fuel - 1, by simp at hfuel; omega⟩
      simp only [List.map_nil, List.flatten_nil, List.nil_append]
      rw [parseHeadersGo_succ]
      have hr : readLine ('\n' :: tail) = (['\n'], tail) := by
        simp [readLine]
      rw [hr, if_pos (by simp)]
      rfl
  | cons p t ih =>
      intro tail acc fuel hgood hfuel
      obtain ⟨k, v⟩ := p
      have hp : plainHeader (k, v) := hgood (k, v) (by simp)
      obtain ⟨hk_colon, hk_cr, hk_lf, hv_sep, hv_cr, hv_lf, hv_head, hv_last⟩ := hp
      obtain ⟨f, rfl⟩ : ∃ f, fuel = f + 1 := ⟨fuel - 1, by omega⟩
      set REST := (t.map headerLine).flatten ++ '\n' :: tail with hREST
      have hshape : ((((k, v) :: t).map headerLine).flatten ++ '\n' :: tail) =
          (k ++ ": ".toList ++ v) ++ '\n' :: REST := by
        simp only [List.map_cons, List.flatten_cons, headerLine, hREST]
        simp [List.append_assoc]
      rw [hshape, parseHeadersGo_succ]
      have hnolf : '\n' ∉ k ++ ": ".toList ++ v := by
        simp only [List.mem_append]
        rintro ((h | h) | h)
        · exact hk_lf h
        · simp at h
        · exact hv_lf h
      rw [readLine_append _ _ hnolf]
      have hlen3 : (k ++ ": ".toList ++ v ++ ['\n']).length ≥ 3 := by
        simp
        omega
      rw [if_neg (by
        push_neg
        constructor
        · intro h
          apply congrArg List.length at h
          simp at h
          omega
        · intro h
          apply congrArg List.length at h
          simp at h
          omega)]
      have hsplit : pySplit ": ".toList ((k ++ ": ".toList ++ v) ++ ['\n']) =
          [k, v ++ ['\n']] := by
        rw [List.append_assoc]
        exact pySplit_header_line k (v ++ ['\n']) hk_colon
          (strFind_extend_last ':' ' ' '\n' v (by decide) hv_sep)
      have hshape2 : (k ++ ": ".toList ++ v) ++ ['\n'] =
          ((k ++ ": ".toList ++ v) ++ ['\n'] : Str) := rfl
      rw [show ((k ++ ": ".toList ++ v) ++ ['\n'] : Str) =
        k ++ ": ".toList ++ v ++ ['\n'] from by simp [List.append_assoc]] at hsplit ⊢
      rw [hsplit]
      simp only []
      rw [pyStrip_append_newline v (head_all_not_ws v hv_head)
        (getLast_all_not_ws v hv_last)]
      have hrest_len : REST.length < f := by
        have := hfuel
        rw [hshape] at this
        simp at this ⊢
        omega
      rw [ih tail (dinsert k v acc) f (fun q hq => hgood q (by simp [hq])) hrest_len]
      rfl

theorem dlookup_dictFold_ne (k : Str) :
    ∀ (l : List (Str × Str)) (acc : List (Str × Str)),
      (∀ p ∈ l, p.1 ≠ k) →
      dlookup k (l.foldl (fun d p => dinsert p.1 p.2 d) acc) = dlookup k acc := by
  intro l
  induction l with
  | nil => intro acc _; rfl
  | cons p t ih =>
      intro acc hl
      rw [List.foldl_cons, ih _ (fun q hq => hl q (by simp [hq])),
          dlookup_dinsert_ne _ _ _ _ (hl p (by simp))]

theorem natStr_chars (n : Nat) :
    ∀ c ∈ natStr n, ∃ d, d < 10 ∧ c = Char.ofNat (48 + d) := by
  rw [natStr_eq_natRep]
  exact natRep_chars n

theorem digitChar_props (d : Nat) (h : d < 10) :
    Char.ofNat (48 + d) ≠ ':' ∧ Char.ofNat (48 + d) ≠ '\r' ∧
    Char.ofNat (48 + d) ≠ '\n' ∧ Char.ofNat (48 + d) ≠ ' ' := by
  interval_cases d <;> decide

theorem strFind_none_of_head_notin (x y : Char) (s : Str) (hx : x ∉ s) :
    strFind [x, y] s = none := by
  induction s with
  | nil => simp [strFind]
  | cons c t ih =>
      have hc : x ≠ c := fun h => hx (by simp [h])
      have ht : x ∉ t := fun h => hx (by simp [h])
      have hpre : [x, y].isPrefixOf (c :: t) = false := by
        simp [List.isPrefixOf]
        intro h
        exact absurd h hc
      simp only [strFind, hpre, Bool.false_eq_true, if_false, ite_false]
      rw [ih ht]

theorem natStr_no_char (n : Nat) :
    ':' ∉ natStr n ∧ '\r' ∉ natStr n ∧ '\n' ∉ natStr n ∧ ' ' ∉ natStr n := by
  refine ⟨fun h => ?_, fun h => ?_, fun h => ?_, fun h => ?_⟩
  · obtain ⟨d, hd, he⟩ := natStr_chars n _ h
    exact (digitChar_props d hd).1 he.symm
  · obtain ⟨d, hd, he⟩ := natStr_chars n _ h
    exact (digitChar_props d hd).2.1 he.symm
  · obtain ⟨d, hd, he⟩ := natStr_chars n _ h
    exact (digitChar_props d hd).2.2.1 he.symm
  · obtain ⟨d, hd, he⟩ := natStr_chars n _ h
    exact (digitChar_props d hd).2.2.2 he.symm

theorem clHeader_plain (b : Option Str) : ∀ p ∈ clHeader b, plainHeader p := by
  cases b with
  | none => simp [clHeader]
  | some s =>
      simp only [clHeader, List.mem_singleton]
      rintro p rfl
      unfold plainHeader
      refine ⟨?_, ?_, ?_, ?_, ?_, ?_, ?_, ?_⟩
      · show ':' ∉ contentLengthKey
        decide
      · show '\r' ∉ contentLengthKey
        decide
      · show '\n' ∉ contentLengthKey
        decide
      · exact strFind_none_of_head_notin ':' ' ' _ (natStr_no_char _).1
      · exact (natStr_no_char _).2.1
      · exact (natStr_no_char _).2.2.1
      · rcases hh : (natStr s.length).head? with _ | c
        · rfl
        · have hm : c ∈ natStr s.length := List.mem_of_mem_head? hh
          obtain ⟨d, hd, rfl⟩ := natStr_chars _ c hm
          simp [Option.all, digitChar_not_ws d hd]
      · rcases hh : (natStr s.length).getLast? with _ | c
        · rfl
        · have hm : c ∈ natStr s.length := List.mem_of_mem_getLast? hh
          obtain ⟨d, hd, rfl⟩ := natStr_chars _ c hm
          simp [Option.all, digitChar_not_ws d hd]

/-- C1 (amended): parsing an encoded well-formed request reproduces
method, path, query string, headers (built by in-order dict insertion,
hence last-write-wins) and body exactly, and reproduces the HTTP version
with the line terminator still attached (`version ++ "\n"` after
text-mode newline translation). -/
theorem c1_roundtrip_amended :
    ∀ (method path query version : Str) (headers : List (Str × Str))
      (body : Option Str),
      WellFormedRequest method path query version headers body →
      parseHttpRequest (encodeRequest method path query version headers body) =
        .ok { method := method, requestUri := path, queryString := query,
              httpVersion := version ++ ['\n'],
              headers := dictOfList (headers ++ clHeader body),
              body := body } := by
  intro m path q v hdrs body hwf
  obtain ⟨⟨hm_sp, hm_cr, hm_lf⟩, ⟨hp_sp, hp_cr, hp_lf⟩, ⟨hq_sp, hq_cr, hq_lf⟩,
    ⟨hv_sp, hv_cr, hv_lf⟩, hp_qm, hq_qm, hhdr, hhdr_cl, htail_cr⟩ := hwf
  set target := path ++ (if q = [] then [] else '?' :: q) with htarget_def
  have htarget_mem : ∀ c : Char, c ∈ target → c = '?' ∨ c ∈ path ∨ c ∈ q := by
    intro c hc
    rw [htarget_def] at hc
    rcases List.mem_append.mp hc with h | h
    · exact Or.inr (Or.inl h)
    · by_cases hq0 : q = []
      · rw [if_pos hq0] at h
        simp at h
      · rw [if_neg hq0] at h
        rcases List.mem_cons.mp h with h | h
        · exact Or.inl h
        · exact Or.inr (Or.inr h)
  have htarget_sp : ' ' ∉ target := by
    intro h
    rcases htarget_mem ' ' h with h | h | h
    · exact (by decide : ¬(' ' = '?')) h
    · exact hp_sp h
    · exact hq_sp h
  have htarget_cr : '\r' ∉ target := by
    intro h
    rcases htarget_mem '\r' h with h | h | h
    · exact (by decide : ¬('\r' = '?')) h
    · exact hp_cr h
    · exact hq_cr h
  have htarget_lf : '\n' ∉ target := by
    intro h
    rcases htarget_mem '\n' h with h | h | h
    · exact (by decide : ¬('\n' = '?')) h
    · exact hp_lf h
    · exact hq_lf h
  have hall : ∀ p ∈ hdrs ++ clHeader body, plainHeader p := by
    intro p hp
    rcases List.mem_append.mp hp with h | h
    · exact hhdr p h
    · exact clHeader_plain body p h
  have hreq_cr : '\r' ∉ m ++ [' '] ++ target ++ [' '] ++ v := by
    intro h
    rcases List.mem_append.mp h with h | h
    · rcases List.mem_append.mp h with h | h
      · rcases List.mem_append.mp h with h | h
        · rcases List.mem_append.mp h with h | h
          · exact hm_cr h
          · exact (by decide : '\r' ∉ [' ']) h
        · exact htarget_cr h
      · exact (by decide : '\r' ∉ [' ']) h
    · exact hv_cr h
  have hlines_cr : ∀ l ∈ ((m ++ [' '] ++ target ++ [' '] ++ v) ::
      (((hdrs ++ clHeader body).map (fun p => p.1 ++ ": ".toList ++ p.2)) ++ [[]])),
      '\r' ∉ l := by
    intro l hl
    rcases List.mem_cons.mp hl with rfl | hl
    · exact hreq_cr
    · rcases List.mem_append.mp hl with hl | hl
      · obtain ⟨p, hp, rfl⟩ := List.mem_map.mp hl
        obtain ⟨_, h2, _, _, h5, _⟩ := hall p hp
        intro h
        rcases List.mem_append.mp h with h | h
        · rcases List.mem_append.mp h with h | h
          · exact h2 h
          · exact (by decide : '\r' ∉ ": ".toList) h
        · exact h5 h
      · rcases List.mem_cons.mp hl with rfl | hl
        · simp
        · simp at hl
  have henc : encodeRequest m path q v hdrs body =
      (List.map (fun l => l ++ "\r\n".toList)
        ((m ++ [' '] ++ target ++ [' '] ++ v) ::
          (List.map (fun p => p.1 ++ ": ".toList ++ p.2) (hdrs ++ clHeader body)
            ++ [[]]))).flatten ++ body.getD [] := by
    simp only [encodeRequest]
    rw [← htarget_def]
    simp only [List.cons_append]
  have htrans : translateNewlines (encodeRequest m path q v hdrs body) =
      (m ++ [' '] ++ target ++ [' '] ++ v) ++ '\n' ::
        (((hdrs ++ clHeader body).map headerLine).flatten ++
          '\n' :: body.getD []) := by
    rw [henc]
    rw [translateNewlines_lines _ _ hlines_cr htail_cr]
    have hnl : "\n".toList = ['\n'] := rfl
    simp only [List.map_cons, List.map_append, List.map_map, List.map_nil,
      List.flatten_cons, List.flatten_append, List.flatten_nil, Function.comp_def,
      headerLine, hnl, List.append_assoc, List.cons_append, List.nil_append,
      List.append_nil, List.singleton_append]
    have hHL : (fun (x : Str × Str) => x.1 ++ (": ".toList ++ (x.2 ++ ['\n']))) =
        headerLine := by
      funext p
      simp [headerLine, List.append_assoc]
    rw [hHL]
  have hnolf_req : '\n' ∉ m ++ [' '] ++ target ++ [' '] ++ v := by
    intro h
    rcases List.mem_append.mp h with h | h
    · rcases List.mem_append.mp h with h | h
      · rcases List.mem_append.mp h with h | h
        · rcases List.mem_append.mp h with h | h
          · exact hm_lf h
          · exact (by decide : '\n' ∉ [' ']) h
        · exact htarget_lf h
      · exact (by decide : '\n' ∉ [' ']) h
    · exact hv_lf h
  have hsplitline : pySplitChar ' ' ((m ++ [' '] ++ target ++ [' '] ++ v) ++ ['\n']) =
      [m, target, v ++ ['\n']] := by
    have h1 : (m ++ [' '] ++ target ++ [' '] ++ v) ++ ['\n'] =
        m ++ ' ' :: (target ++ ' ' :: (v ++ ['\n'])) := by
      simp [List.append_assoc]
    have hvlf : ' ' ∉ v ++ ['\n'] := by
      intro h
      rcases List.mem_append.mp h with h | h
      · exact hv_sp h
      · exact (by decide : ' ' ∉ ['\n']) h
    rw [h1, pySplitChar_append ' ' m _ hm_sp,
        pySplitChar_append ' ' target _ htarget_sp,
        pySplitChar_none ' ' _ hvlf]
  have hfull : pySplitChar '?' target = if q = [] then [path] else [path, q] := by
    rw [htarget_def]
    by_cases hq0 : q = []
    · rw [if_pos hq0, if_pos hq0, List.append_nil]
      exact pySplitChar_none '?' path hp_qm
    · rw [if_neg hq0, if_neg hq0, pySplitChar_append '?' path q hp_qm,
          pySplitChar_none '?' q hq_qm]
  have hheaders : ∀ fuel,
      (((hdrs ++ clHeader body).map headerLine).flatten ++ '\n' :: body.getD []).length < fuel →
      parseHeadersGo fuel
        (((hdrs ++ clHeader body).map headerLine).flatten ++ '\n' :: body.getD []) [] =
        .ok (dictOfList (hdrs ++ clHeader body), body.getD []) :=
    fun fuel hf => parseHeadersGo_lines (hdrs ++ clHeader body) (body.getD []) [] fuel hall hf
  simp only [parseHttpRequest]
  rw [htrans, readLine_append _ _ hnolf_req]
  simp only []
  rw [hsplitline]
  simp only []
  rw [hfull, hheaders _ (by omega)]
  simp only []
  cases body with
  | none =>
      have hcl : dlookup contentLengthKey (dictOfList (hdrs ++ clHeader none)) = none := by
        simp only [clHeader, List.append_nil]
        unfold dictOfList
        rw [dlookup_dictFold_ne _ _ _ hhdr_cl]
        rfl
      rw [hcl]
      by_cases hq0 : q = []
      · simp [hq0]
      · simp [hq0]
  | some b =>
      have hcl : dlookup contentLengthKey (dictOfList (hdrs ++ clHeader (some b))) =
          some (natStr b.length) := by
        simp only [clHeader]
        unfold dictOfList
        rw [List.foldl_append]
        simp only [List.foldl_cons, List.foldl_nil]
        exact dlookup_dinsert_self _ _ _
      rw [hcl]
      simp only []
      rw [pyInt_natStr]
      simp only []
      have hread : (pyRead (b.length : Int) (Option.getD (some b) [])).1 = b := by
        unfold pyRead
        rw [if_neg (by omega)]
        simp
      rw [hread]
      by_cases hq0 : q = []
      · simp [hq0]
      · simp [hq0]

/-- C1 counterexample: for the simplest well-formed request
`GET /a HTTP/1.1` with no headers and no body, the parsed HTTP version is
`"HTTP/1.1\n"` — the line terminator is kept (the source stores
request-line part `[2]` untrimmed) — so parsing does not reproduce the
encoded version field exactly. -/
theorem c1_roundtrip_counterexample :
    parseHttpRequest
        (encodeRequest "GET".toList "/a".toList [] "HTTP/1.1".toList [] none) =
      .ok { method := "GET".toList, requestUri := "/a".toList,
            queryString := [], httpVersion := "HTTP/1.1\n".toList,
            headers := [], body := none } ∧
    "HTTP/1.1\n".toList ≠ "HTTP/1.1".toList := by
  refine ⟨by decide, by decide⟩

/-- Witness for C1 (amended) at a concrete request: `POST /p?x=1
HTTP/1.1` with headers `Host: h`, `Host: i` (exercising last-write-wins)
and body `hi` (with its `Content-Length: 2`). -/
theorem c1_roundtrip_amended_witness :
    parseHttpRequest
        (encodeRequest "POST".toList "/p".toList "x=1".toList "HTTP/1.1".toList
          [("Host".toList, "h".toList), ("Host".toList, "i".toList)]
          (some "hi".toList)) =
      .ok { method := "POST".toList, requestUri := "/p".toList,
            queryString := "x=1".toList,
            httpVersion := "HTTP/1.1".toList ++ ['\n'],
            headers := dictOfList
              ([("Host".toList, "h".toList), ("Host".toList, "i".toList)] ++
                clHeader (some "hi".toList)),
            body := some "hi".toList } :=
  c1_roundtrip_amended "POST".toList "/p".toList "x=1".toList "HTTP/1.1".toList
    [("Host".toList, "h".toList), ("Host".toList, "i".toList)]
    (some "hi".toList) (by refine ⟨?_, ?_, ?_, ?_, ?_, ?_, ?_, ?_, ?_⟩ <;> decide)

/-- C3: with the endpoint `GET /api/:id` registered (the dispatcher
strips the configured `/api` prefix from the request URI before lookup —
src/httprequesthandler.py line 163 — so that endpoint is the registry
entry `"/:id"`), the request `GET /api/42` dispatches the handler with
the positional argument list `["42"]`; `POST /api/42` dispatches no
handler and yields a response with status 405 and header `Allow: GET`. -/
theorem c3_dynamic_route_dispatch :
    handleApiRequest [("/:id".toList, [("GET".toList, 0)])]
        "GET".toList "/api/42".toList =
      .dispatched "/:id".toList "GET".toList 0 ["42".toList] ∧
    handleApiRequest [("/:id".toList, [("GET".toList, 0)])]
        "POST".toList "/api/42".toList =
      .methodNotAllowed ["GET".toList] ∧
    (apiOutcomeResponse (fun _ _ => none)
        (handleApiRequest [("/:id".toList, [("GET".toList, 0)])]
          "POST".toList "/api/42".toList) mkHttpResponse).statusCode = 405 ∧
    dlookup "Allow".toList (apiOutcomeResponse (fun _ _ => none)
        (handleApiRequest [("/:id".toList, [("GET".toList, 0)])]
          "POST".toList "/api/42".toList) mkHttpResponse).headers =
      some "GET".toList := by
  refine ⟨by decide, by decide, by decide, by decide⟩

/-- C2 counterexample: (a) for the registered dynamic pattern `/a/:x/b`
and the request path `/a/1/b/b` (no static match), the code dispatches
with arguments `["1"]` — the characters up to the *first* occurrence of
the next literal (lazy) — while the claim's greedy extraction yields
`["1/b"]`; (b) for the pattern `/a.b/:x` and the path `/aXb/1`, the
code's matcher accepts (`.` is an unescaped regex metacharacter) and
dispatches, although the claim's matcher with verbatim literal segments
rejects that path. -/
theorem c2_dynamic_route_counterexample :
    handleApiRequest [("/a/:x/b".toList, [("GET".toList, 0)])]
        "GET".toList "/api/a/1/b/b".toList =
      .dispatched "/a/:x/b".toList "GET".toList 0 ["1".toList] ∧
    specGreedyExtract
        (specPieces [Comp.lit "a".toList, Comp.dyn "x".toList, Comp.lit "b".toList])
        "/a/1/b/b".toList = some ["1/b".toList] ∧
    renderPattern [Comp.lit "a".toList, Comp.dyn "x".toList, Comp.lit "b".toList] =
      "/a/:x/b".toList ∧
    ("1".toList : Str) ≠ "1/b".toList ∧
    handleApiRequest [("/a.b/:x".toList, [("GET".toList, 0)])]
        "GET".toList "/api/aXb/1".toList =
      .dispatched "/a.b/:x".toList "GET".toList 0 ["/aXb/1".toList] ∧
    rtokMatch (specRtoks [Comp.lit "a.b".toList, Comp.dyn "x".toList])
        "/aXb/1".toList = false ∧
    renderPattern [Comp.lit "a.b".toList, Comp.dyn "x".toList] =
      "/a.b/:x".toList := by
  refine ⟨by decide, by decide, by decide, by decide, by decide, by decide, by decide⟩

/-- C8 counterexample: a request whose `Content-Length` header value is
not a number (`"abc"`) raises the uncaught `ValueError` from `int()`
inside parsing; the error escapes the per-connection handling boundary
instead of being converted to a status code. -/
theorem c8_error_boundary_counterexample :
    handleRequest [] (fun _ _ => none) (fun _ => none)
        "GET / HTTP/1.1\r\nContent-Length: abc\r\n\r\n".toList =
      .error .valueError := by
  decide

/-- C8 (amended): every connection either receives a well-formed
response or fails with the single uncaught error class (the `ValueError`
from a malformed `Content-Length`); a parse failure from missing parts is
always answered with status 400; in particular a request line without a
target and a header line without a colon separator both produce the parse
error and the 400 response. -/
theorem c8_error_handling_amended :
    (∀ (stream : Str) (endpoints : List (Str × List (Str × Nat)))
       (sem : Nat → List Str → Option Bytes)
       (fileGet : Str → Option (Bytes × Str)),
       (∃ r, handleRequest endpoints sem fileGet stream = .ok r) ∨
       handleRequest endpoints sem fileGet stream = .error .valueError) ∧
    (∀ (stream : Str) (endpoints : List (Str × List (Str × Nat)))
       (sem : Nat → List Str → Option Bytes)
       (fileGet : Str → Option (Bytes × Str)),
       parseHttpRequest stream = .error .parseError →
       handleRequest endpoints sem fileGet stream =
         .ok (setStatus mkHttpResponse 400) ∧
       (setStatus mkHttpResponse 400).statusCode = 400 ∧
       (setStatus mkHttpResponse 400).status = "400 Bad Request".toList) ∧
    parseHttpRequest "GET\r\n\r\n".toList = .error .parseError ∧
    parseHttpRequest "GET / HTTP/1.1\r\nBadHeader\r\n\r\n".toList =
      .error .parseError := by
  refine ⟨?_, ?_, by decide, by decide⟩
  · intro stream endpoints sem fileGet
    unfold handleRequest
    rcases parseHttpRequest stream with e | req
    · cases e
      · exact Or.inl ⟨_, rfl⟩
      · exact Or.inr rfl
    · simp only []
      by_cases hw : req.method ∈ METHOD_WHITELIST
      · rw [if_pos hw]
        by_cases ha : req.requestUri = API_URI ∨
            (API_URI ++ "/".toList).isPrefixOf req.requestUri
        · rw [if_pos ha]
          exact Or.inl ⟨_, rfl⟩
        · rw [if_neg ha]
          exact Or.inl ⟨_, rfl⟩
      · rw [if_neg hw]
        exact Or.inl ⟨_, rfl⟩
  · intro stream endpoints sem fileGet hp
    unfold handleRequest
    rw [hp]
    exact ⟨rfl, by decide, by decide⟩

/-- Witness for C8 (amended) at the concrete malformed request line
`"GET\r\n\r\n"` (missing target and version parts). -/
theorem c8_error_handling_amended_witness :
    ((∃ r, handleRequest [] (fun _ _ => none) (fun _ => none)
        "GET\r\n\r\n".toList = .ok r) ∨
      handleRequest [] (fun _ _ => none) (fun _ => none)
        "GET\r\n\r\n".toList = .error .valueError) ∧
    handleRequest [] (fun _ _ => none) (fun _ => none) "GET\r\n\r\n".toList =
      .ok (setStatus mkHttpResponse 400) ∧
    (setStatus mkHttpResponse 400).statusCode = 400 ∧
    (setStatus mkHttpResponse 400).status = "400 Bad Request".toList :=
  ⟨c8_error_handling_amended.1 "GET\r\n\r\n".toList [] (fun _ _ => none)
      (fun _ => none),
   c8_error_handling_amended.2.1 "GET\r\n\r\n".toList [] (fun _ _ => none)
      (fun _ => none) (by decide)⟩


/-! ## C2: equivalence of the regex pipeline with the spec-side model -/


theorem takeWhile_all {α : Type} (p : α → Bool) (l : List α)
    (h : ∀ x ∈ l, p x = true) : l.takeWhile p = l :=
  List.takeWhile_eq_self_iff.mpr h

theorem mem_intersperse {α : Type} (m x : α) (l : List α)
    (h : x ∈ List.intersperse m l) : x = m ∨ x ∈ l := by
  induction l with
  | nil => simp [List.intersperse] at h
  | cons a t ih =>
      cases t with
      | nil => simp [List.intersperse] at h; simp [h]
      | cons b t' =>
          rw [List.intersperse_cons_cons] at h
          simp only [List.mem_cons] at h
          rcases h with h | h | h
          · right; simp [h]
          · left; exact h
          · rcases ih (by simpa using h) with h' | h'
            · left; exact h'
            · right; simp [h']

theorem intersperse_ne_nil {α : Type} (m : α) (l : List α) (h : l ≠ []) :
    List.intersperse m l ≠ [] := by
  cases l with
  | nil => exact absurd rfl h
  | cons a t => cases t <;> simp [List.intersperse]

theorem intercalate_cons_cons (s a b : Str) (t : List Str) :
    List.intercalate s (a :: b :: t) = a ++ s ++ List.intercalate s (b :: t) := by
  simp [List.intercalate]

theorem intercalate_single (s a : Str) : List.intercalate s [a] = a := by
  simp [List.intercalate]

theorem intercalate_map_flatten (s : Str) (t : List Str) :
    ∀ d : Str, List.intercalate s (d :: t) =
      d ++ (t.map (fun x => s ++ x)).flatten := by
  induction t with
  | nil => intro d; simp [intercalate_single]
  | cons e t' ih =>
      intro d
      rw [intercalate_cons_cons, ih e]
      simp [List.append_assoc]

theorem intercalate_nil_cons (s : Str) (l : List Str) :
    List.intercalate s ([] :: l) = (l.map (fun x => s ++ x)).flatten := by
  rw [intercalate_map_flatten]
  simp

theorem intercalate_intersperse (s m : Str) (l : List Str) :
    List.intercalate (s ++ m ++ s) l =
      List.intercalate s (List.intersperse m l) := by
  induction l with
  | nil => simp [List.intercalate]
  | cons a t ih =>
      cases t with
      | nil => simp [List.intercalate, List.intersperse]
      | cons b t' =>
          rw [intercalate_cons_cons, ih, List.intersperse_cons_cons,
            intercalate_cons_cons]
          obtain ⟨x, xs, hx⟩ :=
            List.exists_cons_of_ne_nil (intersperse_ne_nil m (b :: t') (by simp))
          rw [hx, intercalate_cons_cons, ← hx]
          simp [List.append_assoc]

theorem pySplitChar_ne_nil (sep : Char) (s : Str) : pySplitChar sep s ≠ [] := by
  induction s with
  | nil => simp [pySplitChar]
  | cons c t _ =>
      rw [pySplitChar]
      by_cases hc : c = sep
      · simp [hc]
      · simp only [hc, if_false, ite_false]
        cases h : pySplitChar sep t <;> simp

theorem pySplitChar_prepend (sep : Char) (a b : Str) (ha : sep ∉ a) :
    pySplitChar sep (a ++ b) =
      (pySplitChar sep b).modifyHead (fun h => a ++ h) := by
  induction a with
  | nil =>
      simp only [List.nil_append]
      cases h : pySplitChar sep b with
      | nil => simp
      | cons x t => simp
  | cons c t ih =>
      have hc : c ≠ sep := fun h => ha (by simp [h])
      have ht : sep ∉ t := fun h => ha (by simp [h])
      rw [List.cons_append, pySplitChar]
      simp only [hc, if_false, ite_false]
      rw [ih ht]
      obtain ⟨x, xs, hx⟩ :=
        List.exists_cons_of_ne_nil (pySplitChar_ne_nil sep b)
      rw [hx]
      simp

theorem isPrefixOf_append_self (a b : Str) : a.isPrefixOf (a ++ b) = true := by
  induction a with
  | nil => simp [List.isPrefixOf]
  | cons c t ih => simp [List.isPrefixOf, ih]

theorem strFind_prefix_after (c : Char) (p : Str) :
    ∀ A B : Str, c ∉ A → (c :: p).isPrefixOf B = true →
      strFind (c :: p) (A ++ B) = some A.length := by
  intro A
  induction A with
  | nil =>
      intro B _ hB
      cases B with
      | nil => simp [List.isPrefixOf] at hB
      | cons b bs =>
          simp only [List.nil_append]
          rw [strFind, hB]
          rfl
  | cons x A' ih =>
      intro B hA hB
      have hx : x ≠ c := fun h => hA (by simp [h])
      have hA' : c ∉ A' := fun h => hA (by simp [h])
      rw [List.cons_append, strFind]
      have hcx : (c == x) = false := by
        simp only [beq_eq_false_iff_ne, ne_eq]
        exact fun h => hx h.symm
      have hpre : (c :: p).isPrefixOf (x :: (A' ++ B)) = false := by
        simp [List.isPrefixOf, hcx]
      rw [hpre]
      simp only [Bool.false_eq_true, if_false, ite_false]
      rw [ih B hA' hB]
      simp

theorem strFind_head_notin (c : Char) (p s : Str) (hs : c ∉ s) :
    strFind (c :: p) s = none := by
  induction s with
  | nil => simp [strFind]
  | cons x t ih =>
      have hx : x ≠ c := fun h => hs (by simp [h])
      have ht : c ∉ t := fun h => hs (by simp [h])
      rw [strFind]
      have hcx : (c == x) = false := by
        simp only [beq_eq_false_iff_ne, ne_eq]
        exact fun h => hx h.symm
      have hpre : (c :: p).isPrefixOf (x :: t) = false := by
        simp [List.isPrefixOf, hcx]
      rw [hpre]
      simp only [Bool.false_eq_true, if_false, ite_false]
      rw [ih ht]

theorem pySplitGo_intercalate (c : Char) (p : Str) (parts : List Str)
    (h : ∀ q ∈ parts, c ∉ q) :
    ∀ fuel, (List.intercalate (c :: p) parts).length < fuel → parts ≠ [] →
      pySplitGo fuel (c :: p) (List.intercalate (c :: p) parts) = parts := by
  induction parts with
  | nil => intro fuel _ hne; exact absurd rfl hne
  | cons q t ih =>
      intro fuel hfuel _
      cases t with
      | nil =>
          rw [intercalate_single] at hfuel ⊢
          exact pySplitGo_none fuel (c :: p) q (by omega)
            (strFind_head_notin c p q (h q (by simp)))
      | cons r t' =>
          rw [intercalate_cons_cons] at hfuel ⊢
          rw [List.append_assoc] at hfuel ⊢
          have hpre : (c :: p).isPrefixOf
              ((c :: p) ++ List.intercalate (c :: p) (r :: t')) = true :=
            isPrefixOf_append_self _ _
          have hfind : strFind (c :: p)
              (q ++ ((c :: p) ++ List.intercalate (c :: p) (r :: t'))) =
              some q.length :=
            strFind_prefix_after c p q _ (h q (by simp)) hpre
          cases fuel with
          | zero => omega
          | succ f =>
              rw [pySplitGo_some f _ _ q.length hfind]
              rw [List.take_left]
              have hdrop :
                  (q ++ ((c :: p) ++ List.intercalate (c :: p) (r :: t'))).drop
                    (q.length + (c :: p).length) =
                  List.intercalate (c :: p) (r :: t') := by
                rw [List.drop_append (c :: p).length]
                exact List.drop_left _ _
              rw [hdrop]
              have hlen : (List.intercalate (c :: p) (r :: t')).length < f := by
                simp only [List.length_append, List.length_cons] at hfuel
                omega
              rw [ih (fun x hx => h x (List.mem_cons_of_mem _ hx)) f hlen
                (by simp)]

theorem pySplit_intercalate (c : Char) (p : Str) (parts : List Str)
    (h : ∀ q ∈ parts, c ∉ q) (hne : parts ≠ []) :
    pySplit (c :: p) (List.intercalate (c :: p) parts) = parts :=
  pySplitGo_intercalate c p parts h _ (Nat.lt_succ_self _) hne

theorem plain_no_colon (s : Str) (h : ∀ c ∈ s, plainPatternChar c) :
    ':' ∉ s :=
  fun hm => (h ':' hm).2.2.2.2.1 rfl

theorem plain_no_slash (s : Str) (h : ∀ c ∈ s, plainPatternChar c) :
    '/' ∉ s :=
  fun hm => (h '/' hm).2.2.2.1 rfl

theorem plain_no_backslash (s : Str) (h : ∀ c ∈ s, plainPatternChar c) :
    '\\' ∉ s :=
  fun hm => (h '\\' hm).2.1 rfl

theorem plain_no_dot (s : Str) (h : ∀ c ∈ s, plainPatternChar c) :
    '.' ∉ s :=
  fun hm => (h '.' hm).2.2.1 rfl

theorem plain_no_qmark (s : Str) (h : ∀ c ∈ s, plainPatternChar c) :
    '?' ∉ s :=
  fun hm => (h '?' hm).1 (by decide)

theorem renderPattern_cons (c : Comp) (r : List Comp) :
    renderPattern (c :: r) = '/' :: (displayComp c ++ renderPattern r) := by
  simp [renderPattern]

theorem escRenderD_cons (c : Comp) (r : List Comp) :
    escRenderD (c :: r) = '\\' :: '/' :: (displayComp c ++ escRenderD r) := by
  simp [escRenderD]

theorem regexCore_cons (c : Comp) (r : List Comp) :
    regexCore (c :: r) = '\\' :: '/' :: (bodyOf c ++ regexCore r) := by
  simp [regexCore]

theorem unescCore_cons (c : Comp) (r : List Comp) :
    unescCore (c :: r) = '/' :: (bodyOf c ++ unescCore r) := by
  simp [unescCore]

theorem dynNames_cons_lit (s : Str) (r : List Comp) :
    dynNames (Comp.lit s :: r) = dynNames r := by
  simp [dynNames]

theorem dynNames_cons_dyn (n : Str) (r : List Comp) :
    dynNames (Comp.dyn n :: r) = n :: dynNames r := by
  simp [dynNames]

theorem preColon_shape (comps : List Comp) :
    preColon comps = [] ∨ ∃ t, preColon comps = '/' :: t := by
  cases comps with
  | nil => exact Or.inl rfl
  | cons c r =>
      cases c with
      | lit s => exact Or.inr ⟨s ++ preColon r, rfl⟩
      | dyn n => exact Or.inr ⟨[], rfl⟩

theorem pySplitChar_colon_render (comps : List Comp)
    (h : ∀ c ∈ comps, wfComp c) :
    pySplitChar ':' (renderPattern comps) =
      preColon comps :: colonChunks comps := by
  induction comps with
  | nil => rfl
  | cons c r ih =>
      have hr : ∀ x ∈ r, wfComp x := fun x hx => h x (by simp [hx])
      cases c with
      | lit s =>
          have hs := (h (Comp.lit s) (by simp)).2
          have hns : ':' ∉ ('/' :: s) := by
            intro hm
            rcases List.mem_cons.mp hm with h' | h'
            · exact absurd h' (by decide)
            · exact plain_no_colon s hs h'
          have hform : renderPattern (Comp.lit s :: r) =
              ('/' :: s) ++ renderPattern r := by
            rw [renderPattern_cons]; simp [displayComp]
          rw [hform, pySplitChar_prepend _ _ _ hns, ih hr]
          simp [preColon, colonChunks]
      | dyn n =>
          have hn := (h (Comp.dyn n) (by simp)).2
          have hform : renderPattern (Comp.dyn n :: r) =
              '/' :: ':' :: (n ++ renderPattern r) := by
            rw [renderPattern_cons]; simp [displayComp]
          have hstep : pySplitChar ':' (':' :: (n ++ renderPattern r)) =
              [] :: ((preColon r :: colonChunks r).modifyHead
                (fun x => n ++ x)) := by
            rw [pySplitChar, if_pos rfl,
              pySplitChar_prepend _ _ _ (plain_no_colon n hn), ih hr]
          rw [hform, pySplitChar,
            if_neg (by decide : ¬ ('/' : Char) = ':'), hstep]
          simp [preColon, colonChunks]

theorem colonChunks_ne_nil (comps : List Comp) (h : ∀ c ∈ comps, wfComp c) :
    ∀ ch ∈ colonChunks comps, ch ≠ [] := by
  induction comps with
  | nil => simp [colonChunks]
  | cons c r ih =>
      have hr : ∀ x ∈ r, wfComp x := fun x hx => h x (by simp [hx])
      cases c with
      | lit s => exact ih hr
      | dyn n =>
          intro ch hch
          rcases List.mem_cons.mp hch with h' | h'
          · subst h'
            have hn := (h (Comp.dyn n) (by simp)).1
            cases hn' : n with
            | nil => exact absurd hn' hn
            | cons a t => simp [hn']
          · exact ih hr ch h'

theorem colonChunks_heads (comps : List Comp) (h : ∀ c ∈ comps, wfComp c) :
    (colonChunks comps).map (fun s => (pySplitChar '/' s).headD []) =
      dynNames comps := by
  induction comps with
  | nil => rfl
  | cons c r ih =>
      have hr : ∀ x ∈ r, wfComp x := fun x hx => h x (by simp [hx])
      cases c with
      | lit s =>
          rw [dynNames_cons_lit]
          exact ih hr
      | dyn n =>
          have hn := (h (Comp.dyn n) (by simp)).2
          rw [show colonChunks (Comp.dyn n :: r) =
            (n ++ preColon r) :: colonChunks r from rfl]
          rw [List.map_cons, ih hr, dynNames_cons_dyn]
          congr 1
          rcases preColon_shape r with hp | ⟨t, hp⟩
          · rw [hp, List.append_nil,
              pySplitChar_none _ _ (plain_no_slash n hn)]
            rfl
          · rw [hp, pySplitChar_append _ _ _ (plain_no_slash n hn)]
            rfl

theorem arguments_eq_dynNames (comps : List Comp)
    (h : ∀ c ∈ comps, wfComp c) :
    (((pySplitChar ':' (renderPattern comps)).drop 1).takeWhile
        (fun s => s ≠ [])).map (fun s => (pySplitChar '/' s).headD []) =
      dynNames comps := by
  rw [pySplitChar_colon_render comps h]
  rw [show (preColon comps :: colonChunks comps).drop 1 =
    colonChunks comps from rfl]
  rw [takeWhile_all _ _
    (fun x hx => by simpa using colonChunks_ne_nil comps h x hx)]
  exact colonChunks_heads comps h

theorem pySplitChar_slash_render (comps : List Comp)
    (h : ∀ c ∈ comps, wfComp c) :
    pySplitChar '/' (renderPattern comps) = [] :: comps.map displayComp := by
  induction comps with
  | nil => rfl
  | cons c r ih =>
      have hr : ∀ x ∈ r, wfComp x := fun x hx => h x (by simp [hx])
      have hnd : '/' ∉ displayComp c := by
        cases c with
        | lit s => exact plain_no_slash s (h (Comp.lit s) (by simp)).2
        | dyn n =>
            intro hm
            rcases List.mem_cons.mp hm with h' | h'
            · exact absurd h' (by decide)
            · exact plain_no_slash n (h (Comp.dyn n) (by simp)).2 h'
      rw [renderPattern_cons, pySplitChar, if_pos rfl,
        pySplitChar_prepend _ _ _ hnd, ih hr]
      simp

theorem escape_render (comps : List Comp) (h : ∀ c ∈ comps, wfComp c) :
    List.intercalate "\\/".toList (pySplitChar '/' (renderPattern comps)) =
      escRenderD comps := by
  rw [pySplitChar_slash_render comps h, intercalate_nil_cons, List.map_map]
  have hf : ((fun x => "\\/".toList ++ x) ∘ displayComp) =
      (fun c => '\\' :: '/' :: displayComp c) := by
    funext c; rfl
  rw [hf]
  rfl

theorem foldl_replace_core (comps : List Comp) :
    ∀ pre : Str, ':' ∉ pre → (∀ c ∈ comps, wfComp c) →
      (dynNames comps).foldl
          (fun u a => pyReplaceFirst (':' :: a) ".+".toList u)
          (pre ++ escRenderD comps) = pre ++ regexCore comps := by
  induction comps with
  | nil => intro pre _ _; simp [dynNames, escRenderD, regexCore]
  | cons c r ih =>
      intro pre hpre h
      have hr : ∀ x ∈ r, wfComp x := fun x hx => h x (by simp [hx])
      cases c with
      | lit s =>
          have hs := (h (Comp.lit s) (by simp)).2
          rw [dynNames_cons_lit, escRenderD_cons, regexCore_cons]
          simp only [displayComp, bodyOf]
          have hc2 : ':' ∉ pre ++ '\\' :: '/' :: s := by
            intro hm
            rcases List.mem_append.mp hm with h' | h'
            · exact hpre h'
            · rcases List.mem_cons.mp h' with h'' | h''
              · exact absurd h'' (by decide)
              · rcases List.mem_cons.mp h'' with h3 | h3
                · exact absurd h3 (by decide)
                · exact plain_no_colon s hs h3
          have hassoc : pre ++ '\\' :: '/' :: (s ++ escRenderD r) =
              (pre ++ '\\' :: '/' :: s) ++ escRenderD r := by simp
          rw [hassoc, ih (pre ++ '\\' :: '/' :: s) hc2 hr]
          simp
      | dyn n =>
          have hn := (h (Comp.dyn n) (by simp)).2
          rw [dynNames_cons_dyn, escRenderD_cons, regexCore_cons]
          simp only [displayComp, bodyOf, List.cons_append]
          rw [List.foldl_cons]
          have hA : ':' ∉ pre ++ ['\\', '/'] := by
            intro hm
            rcases List.mem_append.mp hm with h' | h'
            · exact hpre h'
            · revert h'; decide
          have hpreB : (':' :: n).isPrefixOf (':' :: (n ++ escRenderD r)) =
              true := by
            simp [List.isPrefixOf, isPrefixOf_append_self]
          have hfind : strFind (':' :: n)
              ((pre ++ ['\\', '/']) ++ (':' :: (n ++ escRenderD r))) =
              some (pre ++ ['\\', '/']).length :=
            strFind_prefix_after ':' n _ _ hA hpreB
          have hinit : pre ++ '\\' :: '/' :: ':' :: (n ++ escRenderD r) =
              (pre ++ ['\\', '/']) ++ (':' :: (n ++ escRenderD r)) := by
            simp
          have hrep : pyReplaceFirst (':' :: n) ".+".toList
              (pre ++ '\\' :: '/' :: ':' :: (n ++ escRenderD r)) =
              (pre ++ '\\' :: '/' :: ".+".toList) ++ escRenderD r := by
            rw [hinit]
            unfold pyReplaceFirst
            rw [hfind]
            simp only []
            have hdrop :
                ((pre ++ ['\\', '/']) ++ (':' :: (n ++ escRenderD r))).drop
                  ((pre ++ ['\\', '/']).length + (':' :: n).length) =
                escRenderD r := by
              rw [List.drop_append (':' :: n).length]
              rw [show (':' :: n).length = n.length + 1 by simp]
              rw [show ((':' :: (n ++ escRenderD r)) : Str).drop
                (n.length + 1) = (n ++ escRenderD r).drop n.length from rfl]
              exact List.drop_left _ _
            rw [List.take_left, hdrop]
            simp
          rw [hrep]
          have hc2 : ':' ∉ pre ++ '\\' :: '/' :: ".+".toList := by
            intro hm
            rcases List.mem_append.mp hm with h' | h'
            · exact hpre h'
            · revert h'; decide
          rw [ih (pre ++ '\\' :: '/' :: ".+".toList) hc2 hr]
          simp

theorem getRegex_render (comps : List Comp) (h : ∀ c ∈ comps, wfComp c) :
    getRegexFromDynamicUri (renderPattern comps) =
      '^' :: regexCore comps ++ ['$'] := by
  simp only [getRegexFromDynamicUri]
  rw [arguments_eq_dynNames comps h, escape_render comps h]
  have hfold := foldl_replace_core comps [] (by simp) h
  rw [List.nil_append, List.nil_append] at hfold
  rw [hfold]

theorem parseRegexToks_plain_prepend (s : Str) :
    ∀ X : Str, (∀ c ∈ s, plainPatternChar c) →
      parseRegexToks (s ++ X) =
        (parseRegexToks X).map (fun ts => s.map RTok.lit ++ ts) := by
  induction s with
  | nil =>
      intro X _
      cases hpx : parseRegexToks X <;> simp [hpx]
  | cons c s' ih =>
      intro X h
      have hc := h c (by simp)
      have hs' : ∀ x ∈ s', plainPatternChar x := fun x hx => h x (by simp [hx])
      cases hsx : s' ++ X with
      | nil =>
          rcases List.append_eq_nil.mp hsx with ⟨h1, h2⟩
          subst h1; subst h2
          simp [parseRegexToks, hc.2.1, hc.2.2.1, hc.1]
      | cons d r2 =>
          have hgoal : (c :: s') ++ X = c :: d :: r2 := by
            rw [List.cons_append, hsx]
          rw [hgoal, parseRegexToks, if_neg hc.2.1, if_neg hc.2.2.1,
            if_neg hc.1]
          rw [← hsx, ih X hs', Option.map_map]
          cases hpx : parseRegexToks X <;> simp [hpx]

theorem parseRegexToks_regexCore (comps : List Comp)
    (h : ∀ c ∈ comps, wfComp c) :
    parseRegexToks (regexCore comps) = some (specRtoks comps) := by
  induction comps with
  | nil => rfl
  | cons c r ih =>
      have hr : ∀ x ∈ r, wfComp x := fun x hx => h x (by simp [hx])
      cases c with
      | lit s =>
          have hs := (h (Comp.lit s) (by simp)).2
          rw [regexCore_cons]
          simp only [bodyOf]
          rw [parseRegexToks, if_pos rfl]
          rw [parseRegexToks_plain_prepend s _ hs, ih hr]
          simp [specRtoks]
      | dyn n =>
          rw [regexCore_cons]
          simp only [bodyOf]
          rw [show (".+".toList : Str) = ['.', '+'] from rfl]
          simp only [List.cons_append, List.nil_append]
          rw [parseRegexToks, if_pos rfl]
          rw [parseRegexToks, if_neg (by decide : ¬('.' : Char) = '\\'),
            if_pos rfl, if_pos rfl]
          rw [ih hr]
          simp [specRtoks]

theorem pyReMatch_render (comps : List Comp) (path : Str)
    (h : ∀ c ∈ comps, wfComp c) :
    pyReMatch (getRegexFromDynamicUri (renderPattern comps)) path =
      rtokMatch (specRtoks comps) path := by
  rw [getRegex_render comps h]
  unfold pyReMatch
  rw [show (('^' :: regexCore comps ++ ['$']).drop 1) =
    regexCore comps ++ ['$'] from rfl]
  rw [List.dropLast_concat, parseRegexToks_regexCore comps h]

theorem regexCore_intercalate (comps : List Comp) :
    regexCore comps =
      List.intercalate "\\/".toList ([] :: comps.map bodyOf) := by
  rw [intercalate_nil_cons, List.map_map]
  rfl

theorem pySplit_bs_core (comps : List Comp) (h : ∀ c ∈ comps, wfComp c) :
    pySplit "\\/".toList (regexCore comps) = [] :: comps.map bodyOf := by
  rw [regexCore_intercalate]
  rw [show ("\\/".toList : Str) = '\\' :: ['/'] from rfl]
  refine pySplit_intercalate '\\' ['/'] _ ?_ (by simp)
  intro q hq
  rcases List.mem_cons.mp hq with h' | h'
  · subst h'; simp
  · rcases List.mem_map.mp h' with ⟨c, hc, hbc⟩
    subst hbc
    cases c with
    | lit s => exact plain_no_backslash s (h (Comp.lit s) hc).2
    | dyn n =>
        rw [show bodyOf (Comp.dyn n) = ['.', '+'] from rfl]
        decide

theorem intercalate_slash_bodies (comps : List Comp) :
    List.intercalate "/".toList ([] :: comps.map bodyOf) = unescCore comps := by
  rw [intercalate_nil_cons, List.map_map]
  rfl

theorem interludesGo_ne_nil (comps : List Comp) :
    ∀ buf : Str, interludesGo comps buf ≠ [] := by
  induction comps with
  | nil => intro buf; simp [interludesGo]
  | cons c r ih =>
      intro buf
      cases c with
      | lit s => exact ih (buf ++ '/' :: s)
      | dyn n => simp [interludesGo]

theorem unescCore_intercalate (comps : List Comp) :
    ∀ buf : Str, buf ++ unescCore comps =
      List.intercalate ".+".toList (interludesGo comps buf) := by
  induction comps with
  | nil =>
      intro buf
      simp [unescCore, interludesGo, intercalate_single]
  | cons c r ih =>
      intro buf
      cases c with
      | lit s =>
          rw [unescCore_cons]
          simp only [bodyOf]
          rw [show interludesGo (Comp.lit s :: r) buf =
            interludesGo r (buf ++ '/' :: s) from rfl]
          rw [← ih (buf ++ '/' :: s)]
          simp
      | dyn n =>
          rw [unescCore_cons]
          simp only [bodyOf]
          rw [show interludesGo (Comp.dyn n :: r) buf =
            (buf ++ ['/']) :: interludesGo r [] from rfl]
          obtain ⟨x, xs, hx⟩ :=
            List.exists_cons_of_ne_nil (interludesGo_ne_nil r [])
          rw [hx, intercalate_cons_cons, ← hx, ← ih []]
          simp

theorem interludesGo_chars (comps : List Comp) :
    ∀ buf : Str, (∀ c ∈ comps, wfComp c) →
      (∀ ch ∈ buf, ch = '/' ∨ plainPatternChar ch) →
      ∀ chunk ∈ interludesGo comps buf, ∀ ch ∈ chunk,
        ch = '/' ∨ plainPatternChar ch := by
  induction comps with
  | nil =>
      intro buf _ hbuf chunk hchunk
      rw [show interludesGo [] buf = [buf] from rfl] at hchunk
      rcases List.mem_cons.mp hchunk with h' | h'
      · subst h'; exact hbuf
      · simp at h'
  | cons c r ih =>
      intro buf h hbuf
      have hr : ∀ x ∈ r, wfComp x := fun x hx => h x (by simp [hx])
      cases c with
      | lit s =>
          refine ih (buf ++ '/' :: s) hr ?_
          intro ch hch
          rcases List.mem_append.mp hch with h' | h'
          · exact hbuf ch h'
          · rcases List.mem_cons.mp h' with h'' | h''
            · exact Or.inl h''
            · exact Or.inr ((h (Comp.lit s) (by simp)).2 ch h'')
      | dyn n =>
          intro chunk hchunk
          rw [show interludesGo (Comp.dyn n :: r) buf =
            (buf ++ ['/']) :: interludesGo r [] from rfl] at hchunk
          rcases List.mem_cons.mp hchunk with h' | h'
          · subst h'
            intro ch hch
            rcases List.mem_append.mp hch with h'' | h''
            · exact hbuf ch h''
            · rcases List.mem_cons.mp h'' with h3 | h3
              · exact Or.inl h3
              · simp at h3
          · exact ih [] hr (by simp) chunk h'

theorem interludes_no_dot (comps : List Comp) (h : ∀ c ∈ comps, wfComp c) :
    ∀ chunk ∈ interludes comps, '.' ∉ chunk := by
  intro chunk hchunk hm
  rcases interludesGo_chars comps [] h (by simp) chunk hchunk '.' hm with
    h' | h'
  · exact absurd h' (by decide)
  · exact h'.2.2.1 rfl

theorem interludes_no_qmark (comps : List Comp) (h : ∀ c ∈ comps, wfComp c) :
    ∀ chunk ∈ interludes comps, '?' ∉ chunk := by
  intro chunk hchunk hm
  rcases interludesGo_chars comps [] h (by simp) chunk hchunk '?' hm with
    h' | h'
  · exact absurd h' (by decide)
  · exact h'.1 (by decide)

theorem pySplit_dotplus (comps : List Comp) (h : ∀ c ∈ comps, wfComp c) :
    pySplit ".+".toList (unescCore comps) = interludes comps := by
  have hu := unescCore_intercalate comps []
  rw [List.nil_append] at hu
  rw [hu]
  rw [show (".+".toList : Str) = '.' :: ['+'] from rfl]
  exact pySplit_intercalate '.' ['+'] _
    (fun q hq => interludes_no_dot comps h q hq)
    (interludesGo_ne_nil comps [])

theorem pieces_eq_specPieces (comps : List Comp) (h : ∀ c ∈ comps, wfComp c) :
    (pySplit "??".toList
        (List.intercalate "??.+??".toList
          (pySplit ".+".toList
            (List.intercalate "/".toList
              (pySplit "\\/".toList (regexCore comps)))))).filter
        (fun x => x ≠ []) = specPieces comps := by
  rw [pySplit_bs_core comps h, intercalate_slash_bodies,
    pySplit_dotplus comps h]
  rw [show ("??.+??".toList : Str) =
    "??".toList ++ ".+".toList ++ "??".toList from rfl]
  rw [intercalate_intersperse]
  rw [show ("??".toList : Str) = '?' :: ['?'] from rfl]
  rw [pySplit_intercalate '?' ['?'] _ ?_ ?_]
  · rfl
  · intro q hq
    rcases mem_intersperse _ _ _ hq with h' | h'
    · subst h'; decide
    · exact interludes_no_qmark comps h q h'
  · exact intersperse_ne_nil _ _ (interludesGo_ne_nil comps [])

theorem getArguments_render (comps : List Comp) (path : Str)
    (h : ∀ c ∈ comps, wfComp c) :
    getArgumentsFromDynamicUri
        (getRegexFromDynamicUri (renderPattern comps)) path =
      argsLoop (specPieces comps) path := by
  rw [getRegex_render comps h]
  simp only [getArgumentsFromDynamicUri]
  rw [show (('^' :: regexCore comps ++ ['$']).drop 1) =
    regexCore comps ++ ['$'] from rfl]
  rw [List.dropLast_concat]
  rw [pieces_eq_specPieces comps h]

theorem colon_mem_render (comps : List Comp)
    (hdyn : comps.any isDynComp = true) : ':' ∈ renderPattern comps := by
  induction comps with
  | nil => simp at hdyn
  | cons c r ih =>
      rw [renderPattern_cons]
      cases c with
      | lit s =>
          rw [List.any_cons,
            show isDynComp (Comp.lit s) = false from rfl,
            Bool.false_or] at hdyn
          simp only [List.mem_cons]
          right
          rw [List.mem_append]
          exact Or.inr (ih hdyn)
      | dyn n => simp [displayComp]

theorem dynLoop_spec (method path : Str)
    (registry : List (List Comp × List (Str × Nat)))
    (h : ∀ e ∈ registry, wfComps e.1) :
    dynLoop method path
        (registry.map (fun e => (renderPattern e.1, e.2))) =
      specDynDispatch method path registry := by
  induction registry with
  | nil => rfl
  | cons e rest ih =>
      have he := h e (by simp)
      have hrest : ∀ x ∈ rest, wfComps x.1 :=
        fun x hx => h x (List.mem_cons_of_mem _ hx)
      obtain ⟨comps, res⟩ := e
      rw [List.map_cons]
      simp only [dynLoop, specDynDispatch]
      rw [if_pos (colon_mem_render comps he.2)]
      rw [pyReMatch_render comps path he.1]
      by_cases hm : rtokMatch (specRtoks comps) path = true
      · rw [if_pos hm, if_pos hm]
        cases halk : alookup method res with
        | none => rfl
        | some hd => rw [getArguments_render comps path he.1]
      · rw [if_neg hm, if_neg hm]
        exact ih hrest

theorem handleApi_spec (registry : List (List Comp × List (Str × Nat)))
    (method requestUri : Str)
    (h : ∀ e ∈ registry, wfComps e.1)
    (hmiss : alookup (requestUri.drop API_URI.length)
        (registry.map (fun e => (renderPattern e.1, e.2))) = none) :
    handleApiRequest (registry.map (fun e => (renderPattern e.1, e.2)))
        method requestUri =
      specDynDispatch method (requestUri.drop API_URI.length) registry := by
  simp only [handleApiRequest]
  rw [hmiss]
  exact dynLoop_spec method _ registry h

/-- C2 (amended): for every well-formed dynamic route pattern — nonempty
`/`-separated components, each a literal segment or a named `:name`
dynamic segment, whose characters avoid regex metacharacters, backslash,
dot, slash, colon and braces, with at least one dynamic segment — the
code's compiled-regex matcher accepts exactly the paths the spec-side
segment model accepts (literal segments and their slashes verbatim, each
dynamic segment one-or-more arbitrary characters), and the code's
argument extraction returns exactly the spec-side extraction loop's
arguments (each dynamic span ends at the *first* occurrence of the next
literal chunk, not at the greedy longest match); consequently, over any
registry of such patterns, when the stripped request URI has no exact
static key match, `__handle_api_request` dispatches exactly as the
spec-side dynamic dispatch over the structured patterns. -/
theorem c2_dynamic_route_amended :
    (∀ (comps : List Comp) (path : Str), wfComps comps →
       pyReMatch (getRegexFromDynamicUri (renderPattern comps)) path =
         rtokMatch (specRtoks comps) path ∧
       getArgumentsFromDynamicUri
           (getRegexFromDynamicUri (renderPattern comps)) path =
         argsLoop (specPieces comps) path) ∧
    (∀ (registry : List (List Comp × List (Str × Nat)))
       (method requestUri : Str),
       (∀ e ∈ registry, wfComps e.1) →
       alookup (requestUri.drop API_URI.length)
           (registry.map (fun e => (renderPattern e.1, e.2))) = none →
       handleApiRequest (registry.map (fun e => (renderPattern e.1, e.2)))
           method requestUri =
         specDynDispatch method (requestUri.drop API_URI.length) registry) :=
  ⟨fun comps path hwf =>
     ⟨pyReMatch_render comps path hwf.1, getArguments_render comps path hwf.1⟩,
   fun registry method requestUri h hmiss =>
     handleApi_spec registry method requestUri h hmiss⟩

/-- Witness for C2 (amended) at the concrete pattern `/a/:x` (components
`[lit "a", dyn "x"]`), path `/a/1`, and a one-route registry with method
`GET`, request URI `/api/a/1`. -/
theorem c2_dynamic_route_amended_witness :
    (wfComps [Comp.lit "a".toList, Comp.dyn "x".toList] ∧
     (pyReMatch (getRegexFromDynamicUri
           (renderPattern [Comp.lit "a".toList, Comp.dyn "x".toList]))
         "/a/1".toList =
       rtokMatch (specRtoks [Comp.lit "a".toList, Comp.dyn "x".toList])
         "/a/1".toList ∧
      getArgumentsFromDynamicUri (getRegexFromDynamicUri
           (renderPattern [Comp.lit "a".toList, Comp.dyn "x".toList]))
         "/a/1".toList =
       argsLoop (specPieces [Comp.lit "a".toList, Comp.dyn "x".toList])
         "/a/1".toList)) ∧
    ((∀ e ∈ ([([Comp.lit "a".toList, Comp.dyn "x".toList],
          [("GET".toList, 0)])] : List (List Comp × List (Str × Nat))),
        wfComps e.1) ∧
     alookup ("/api/a/1".toList.drop API_URI.length)
         (([([Comp.lit "a".toList, Comp.dyn "x".toList],
            [("GET".toList, 0)])] : List (List Comp × List (Str × Nat))).map
           (fun e => (renderPattern e.1, e.2))) = none ∧
     handleApiRequest
         (([([Comp.lit "a".toList, Comp.dyn "x".toList],
            [("GET".toList, 0)])] : List (List Comp × List (Str × Nat))).map
           (fun e => (renderPattern e.1, e.2)))
         "GET".toList "/api/a/1".toList =
       specDynDispatch "GET".toList ("/api/a/1".toList.drop API_URI.length)
         ([([Comp.lit "a".toList, Comp.dyn "x".toList],
           [("GET".toList, 0)])] : List (List Comp × List (Str × Nat)))) :=
  ⟨⟨by decide, c2_dynamic_route_amended.1
      [Comp.lit "a".toList, Comp.dyn "x".toList] "/a/1".toList (by decide)⟩,
   ⟨by decide, by decide,
    c2_dynamic_route_amended.2
      [([Comp.lit "a".toList, Comp.dyn "x".toList], [("GET".toList, 0)])]
      "GET".toList "/api/a/1".toList (by decide) (by decide)⟩⟩
